import Mathlib

/-!
# genthat: the value serializer (src/Serialize.cpp, src/utils.cpp)

A shallow embedding of `Serializer::serialize` and its helpers, followed by
theorems about it.  Machine strings are `String` (the characters the source
compares against, `%`, `[` and those of the bracket expressions, are ASCII,
so a comparison of bytes and one of characters agree); the per-call set
`visited_environments` is passed explicitly; exceptions are the `throw`
outcome of `Res`; the recursion of `serialize` is bounded by a fuel counter
(one unit per nested call of `serialize`).
-/

namespace Genthat

/-! ## Lexical helpers: regular expressions, KEYWORDS, VALID_NAME, escape_name -/

/-- Regular expressions, enough for the pattern of `VALID_NAME`: a bracket
expression is a list of inclusive character ranges. -/
inductive Regex where
  | nothing : Regex
  | eps : Regex
  | cls (ranges : List (Char × Char)) : Regex
  | seq (r₁ r₂ : Regex) : Regex
  | alt (r₁ r₂ : Regex) : Regex
  | star (r : Regex) : Regex
  deriving DecidableEq, Repr

/-- Membership of a character in a bracket expression. -/
def inClass (ranges : List (Char × Char)) (c : Char) : Bool :=
  ranges.any (fun p => decide (p.1.toNat ≤ c.toNat) && decide (c.toNat ≤ p.2.toNat))

/-- Does the expression accept the empty word. -/
def Regex.nullable : Regex → Bool
  | .nothing => false
  | .eps => true
  | .cls _ => false
  | .seq r₁ r₂ => r₁.nullable && r₂.nullable
  | .alt r₁ r₂ => r₁.nullable || r₂.nullable
  | .star _ => true

/-- Brzozowski derivative with respect to one character. -/
def Regex.deriv : Regex → Char → Regex
  | .nothing, _ => .nothing
  | .eps, _ => .nothing
  | .cls rs, c => if inClass rs c then .eps else .nothing
  | .seq r₁ r₂, c =>
      if r₁.nullable then .alt (.seq (r₁.deriv c) r₂) (r₂.deriv c)
      else .seq (r₁.deriv c) r₂
  | .alt r₁ r₂, c => .alt (r₁.deriv c) (r₂.deriv c)
  | .star r, c => .seq (r.deriv c) (.star r)

/-- Whole-word matching of a list of characters. -/
def Regex.matchChars : Regex → List Char → Bool
  | r, [] => r.nullable
  | r, c :: cs => (r.deriv c).matchChars cs

/-- The call `regex_match(name, re)`: the whole string has to match. -/
def regex_match (name : String) (re : Regex) : Bool :=
  re.matchChars name.data

/-- The optional group `( ... )?`. -/
def Regex.opt (r : Regex) : Regex := .alt r .eps

/-- The bracket expression `[a-zA-Z]`. -/
def cls_alpha : Regex := .cls [('a', 'z'), ('A', 'Z')]

/-- The bracket expression `[a-zA-Z0-9._]`. -/
def cls_word : Regex := .cls [('a', 'z'), ('A', 'Z'), ('0', '9'), ('.', '.'), ('_', '_')]

/-- The bracket expression `[a-zA-Z._]`. -/
def cls_alpha_dot : Regex := .cls [('a', 'z'), ('A', 'Z'), ('.', '.'), ('_', '_')]

/-- The bracket expression `[.]`. -/
def cls_dot : Regex := .cls [('.', '.')]

/-- The pattern `^([a-zA-Z][a-zA-Z0-9._]*|[.]([a-zA-Z._][a-zA-Z0-9._]*)?)$`
(Serialize.cpp line 59); the anchors are implied by whole-word matching. -/
def VALID_NAME : Regex :=
  .alt (.seq cls_alpha (.star cls_word))
       (.seq cls_dot (Regex.opt (.seq cls_alpha_dot (.star cls_word))))

/-- The set `BASE_INFIX_FUNS` (Serialize.cpp lines 40-42). -/
def BASE_INFIX_FUNS : List String :=
  ["<-", "=", "<<-", "+", "-", "*", "/", "^", "==", "!=", "<", "<=", ">=", ">",
   "&", "|", "!", "&&", "||", "~"]

/-- The set `BASE_INFIX_FUNS_NO_SPACE` (Serialize.cpp lines 44-46). -/
def BASE_INFIX_FUNS_NO_SPACE : List String :=
  [":", "::", ":::", "$", "@"]

/-- The set `KEYWORDS` (Serialize.cpp lines 50-54). -/
def KEYWORDS : List String :=
  ["if", "else", "repeat", "while", "function", "for", "in", "next", "break",
   "TRUE", "FALSE", "NULL", "Inf", "NaN", "NA", "NA_integer_", "NA_real_",
   "NA_complex_", "NA_character_", "..."]

/-- The method `is_infix_fun_no_space`. -/
def is_infix_fun_no_space (f : String) : Bool :=
  decide (f ∈ BASE_INFIX_FUNS_NO_SPACE)

/-- The method `is_infix_fun`; `fun[0]` of the empty string is the
terminating NUL, so the last test fails on it before `fun[size - 1]` is read. -/
def is_infix_fun (f : String) : Bool :=
  if f ∈ BASE_INFIX_FUNS then true
  else if f ∈ BASE_INFIX_FUNS_NO_SPACE then true
  else if f.data.head? = some '%' ∧ f.data.getLast? = some '%' then true
  else false

/-- The method `escape_name` (Serialize.cpp lines 89-97). -/
def escape_name (name : String) : String :=
  if name = "" then name
  else if name ∈ KEYWORDS ∨ ¬ regex_match name VALID_NAME = true then "`" ++ name ++ "`"
  else name

/-! ## Host runtime values (the R API, as used by the serializer) -/

/-- Host values, one constructor per `SEXPTYPE` the serializer switches on
and `UNKNOWN` for a type code outside them.  A pairlist is the list of its cells `(TAG, CAR)`; a call holds its head
`CAR(s)` and the cells of `CDR(s)`; attributes are listed in `ATTRIB` order
under the print name of their tag symbol; an environment is a reference into
the table of frames of the `Runtime`; the payload of the numeric vectors is
only read by the host deparser, and so are the attributes of every value
other than a generic vector or a closure, which are left out. -/
inductive SEXP where
  | NILSXP : SEXP
  | SYMSXP (printname : String) : SEXP
  | LISTSXP (cells : List (SEXP × SEXP)) : SEXP
  | CLOSXP (formals body : SEXP) (cloenv : Nat) (attrib : List (String × SEXP)) : SEXP
  | ENVSXP (id : Nat) : SEXP
  | PROMSXP : SEXP
  | LANGSXP (car : SEXP) (cdr : List (SEXP × SEXP)) : SEXP
  | SPECIALSXP : SEXP
  | BUILTINSXP : SEXP
  | CHARSXP : SEXP
  | LGLSXP (payload : List Nat) : SEXP
  | INTSXP (payload : List Nat) : SEXP
  | REALSXP (payload : List Nat) : SEXP
  | CPLXSXP (payload : List Nat) : SEXP
  | STRSXP (elts : List String) : SEXP
  | DOTSXP : SEXP
  | VECSXP (elts : List SEXP) (attrib : List (String × SEXP)) : SEXP
  | EXPRSXP : SEXP
  | BCODESXP : SEXP
  | EXTPTRSXP : SEXP
  | WEAKREFSXP : SEXP
  | RAWSXP : SEXP
  | S4SXP : SEXP
  | UNKNOWN (code : Nat) : SEXP

instance : Inhabited SEXP := ⟨SEXP.NILSXP⟩

/-- The type code `TYPEOF(s)` of Rinternals.h. -/
def TYPEOF : SEXP → Nat
  | .NILSXP => 0
  | .SYMSXP _ => 1
  | .LISTSXP _ => 2
  | .CLOSXP _ _ _ _ => 3
  | .ENVSXP _ => 4
  | .PROMSXP => 5
  | .LANGSXP _ _ => 6
  | .SPECIALSXP => 7
  | .BUILTINSXP => 8
  | .CHARSXP => 9
  | .LGLSXP _ => 10
  | .INTSXP _ => 13
  | .REALSXP _ => 14
  | .CPLXSXP _ => 15
  | .STRSXP _ => 16
  | .DOTSXP => 17
  | .VECSXP _ _ => 19
  | .EXPRSXP => 20
  | .BCODESXP => 21
  | .EXTPTRSXP => 22
  | .WEAKREFSXP => 23
  | .RAWSXP => 24
  | .S4SXP => 25
  | .UNKNOWN code => code

/-- One environment: `ENCLOS`, the bindings in the order in which
`R_lsInternal3(s, TRUE, FALSE)` lists them (each with the value that
`Rf_findVarInFrame` returns), and the names under which `R_IsPackageEnv` /
`R_IsNamespaceEnv` recognise it. -/
structure Frame where
  enclos : Option Nat
  bindings : List (String × SEXP)
  package_name : Option String
  namespace_spec : Option String

/-- The host runtime around one call: the table of environments, the
well-known roots, the deparser `Rf_deparse1` with the fixed option set, and
the R function `extract_closure` of the package (formals, body, environment
and attributes of the closure it returns). -/
structure Runtime where
  frames : List Frame
  R_EmptyEnv : Nat
  R_GlobalEnv : Nat
  R_BaseEnv : Nat
  R_BaseNamespace : Nat
  Rf_deparse1 : SEXP → List String
  extract_closure_r : SEXP → SEXP × SEXP × Nat × List (String × SEXP)

/-- The frame an environment reference points to; a reference outside the
table is an environment with no bindings and no enclosure. -/
def Runtime.frame (rt : Runtime) (e : Nat) : Frame :=
  rt.frames.getD e ⟨none, [], none, none⟩

/-- The test `R_IsPackageEnv(env) == TRUE`. -/
def R_IsPackageEnv (rt : Runtime) (e : Nat) : Bool := (rt.frame e).package_name.isSome

/-- The string `CHAR(STRING_ELT(R_PackageEnvName(env), 0))`. -/
def R_PackageEnvName (rt : Runtime) (e : Nat) : String := (rt.frame e).package_name.getD ""

/-- The test `R_IsNamespaceEnv(env) == TRUE`. -/
def R_IsNamespaceEnv (rt : Runtime) (e : Nat) : Bool := (rt.frame e).namespace_spec.isSome

/-- The string `CHAR(STRING_ELT(R_NamespaceEnvSpec(env), 0))`. -/
def R_NamespaceEnvSpec (rt : Runtime) (e : Nat) : String := (rt.frame e).namespace_spec.getD ""

/-! ## Exceptions and outcomes -/

/-- The exception classes of Serialize.cpp, and `Rf_error` for an error
raised by the host API. -/
inductive Exception where
  | serialization_error (details : String)
  | sexp_not_supported_error (sexp_type : String)
  | cycle_error
  | Rf_error (msg : String)
  deriving DecidableEq, Repr

/-- The message `what()` of an exception. -/
def Exception.what : Exception → String
  | .serialization_error details => "Serialization error: " ++ details
  | .sexp_not_supported_error sexp_type =>
      "Serialization error: " ++ ("SEXP type " ++ sexp_type ++ " not supported!")
  | .cycle_error => "Serialization error: " ++ "Serialized data structure contains cycle!"
  | .Rf_error msg => msg

/-- Outcome of a computation: a value, a thrown exception, or `diverge` when
the fuel ran out. -/
inductive Res (α : Type) where
  | ok (a : α) : Res α
  | throw (e : Exception) : Res α
  | diverge : Res α
  deriving DecidableEq, Repr

/-- The member `visited_environments`. -/
abbrev Visited := Finset Nat

/-- The type of `serialize(s, quote)` run on a given tracking set: the text
and the tracking set afterwards. -/
abbrev Ser := SEXP → Bool → Visited → Res (String × Visited)

/-! ## Helpers of the serializer -/

/-- The table `SPEC_ATTRIBUTES_NAMES` (Serialize.cpp lines 61-67), keyed by
the print name of the symbols `R_DimSymbol`, `R_DimNamesSymbol`,
`R_TspSymbol`, `R_NamesSymbol`, `R_LevelsSymbol`. -/
def SPEC_ATTRIBUTES_NAMES : List (String × String) :=
  [("dim", ".Dim"), ("dimnames", ".Dimnames"), ("tsp", ".Tsp"), ("names", ".Names"),
   ("levels", ".Label")]

/-- The method `attribute_name` (Serialize.cpp lines 99-107). -/
def attribute_name (tag : String) : String :=
  match SPEC_ATTRIBUTES_NAMES.lookup tag with
  | some special => special
  | none => escape_name tag

/-- The loop of `wrap_in_attributes` (Serialize.cpp lines 113-125) over the
cells of `ATTRIB(s)`, with the accumulator `elems`. -/
def wrap_in_attributes_loop (ser : Ser) :
    List (String × SEXP) → String → Visited → Res (String × Visited)
  | [], elems, visited => .ok (elems, visited)
  | (tag, car) :: cdr, elems, visited =>
      if tag = "srcref" then wrap_in_attributes_loop ser cdr elems visited
      else if tag = "names" then wrap_in_attributes_loop ser cdr elems visited
      else
        match ser car true visited with
        | .ok (value, visited) =>
            wrap_in_attributes_loop ser cdr
              (elems ++ (attribute_name tag ++ "=" ++ value) ++ (if cdr.isEmpty then "" else ", "))
              visited
        | .throw e => .throw e
        | .diverge => .diverge

/-- The method `wrap_in_attributes` (Serialize.cpp lines 109-128). -/
def wrap_in_attributes (ser : Ser) (attrib : List (String × SEXP)) (s_str : String)
    (visited : Visited) : Res (String × Visited) :=
  match wrap_in_attributes_loop ser attrib "" visited with
  | .ok (elems, visited) =>
      .ok (if elems ≠ "" then "structure(" ++ s_str ++ ", " ++ elems ++ ")" else s_str, visited)
  | .throw e => .throw e
  | .diverge => .diverge

/-- The method `format_argument` (Serialize.cpp lines 130-161) on one cell
`(TAG(arg), CAR(arg))`. -/
def format_argument (ser : Ser) (arg : SEXP × SEXP) (visited : Visited) :
    Res (String × Visited) :=
  let arg_name := arg.1
  let arg_value := arg.2
  let name : Res (String × Visited) :=
    match arg_name with
    | .NILSXP => .ok ("", visited)
    | .SYMSXP _ =>
        match ser arg_name false visited with
        | .ok (printed, visited) => .ok (escape_name printed, visited)
        | .throw e => .throw e
        | .diverge => .diverge
    | _ =>
        .throw (.serialization_error
          ("Unexpected SEXPTYPE in function arguments: " ++ toString (TYPEOF arg_name)))
  match name with
  | .ok (name, visited) =>
      match ser arg_value false visited with
      | .ok (value, visited) =>
          .ok (if name ≠ "" ∧ value ≠ "" then name ++ "=" ++ value
               else if name = "" then value
               else if value = "" then name
               else "", visited)
      | .throw e => .throw e
      | .diverge => .diverge
  | .throw e => .throw e
  | .diverge => .diverge

/-- The loop of `format_arguments` (Serialize.cpp lines 166-169), with the
accumulator `res`. -/
def format_arguments_loop (ser : Ser) (sep : String) :
    List (SEXP × SEXP) → String → Visited → Res (String × Visited)
  | [], res, visited => .ok (res, visited)
  | arg :: cdr, res, visited =>
      match format_argument ser arg visited with
      | .ok (formatted, visited) =>
          format_arguments_loop ser sep cdr
            (res ++ formatted ++ (if cdr.isEmpty then "" else sep)) visited
      | .throw e => .throw e
      | .diverge => .diverge

/-- The method `format_arguments` (Serialize.cpp lines 163-172) on the cells
of a pairlist. -/
def format_arguments (ser : Ser) (args : List (SEXP × SEXP)) (sep : String)
    (visited : Visited) : Res (String × Visited) :=
  format_arguments_loop ser sep args "" visited

/-- The value `Rf_getAttrib(s, R_NamesSymbol)` of a generic vector: the
character vector the host keeps under `names`, or `none` for `R_NilValue`
(the host reads the names of a one-dimensional array from its `dimnames`
instead; that case is not modelled). -/
def Rf_getAttrib_names (attrib : List (String × SEXP)) : Option (List String) :=
  match attrib.lookup "names" with
  | some (.STRSXP elts) => some elts
  | _ => none

/-- The value `Rf_getAttrib(s, R_NamesSymbol)` of a pairlist, which the host
builds from the tags: the print names of the tags (blank for an absent tag)
when some cell has a symbol tag, `R_NilValue` when none has, and an error on a
tag that is neither. -/
def Rf_getAttrib_names_pairlist (cells : List (SEXP × SEXP)) : Res (Option (List String)) :=
  if cells.any (fun c => match c.1 with
      | .NILSXP => false
      | .SYMSXP _ => false
      | _ => true) then
    .throw (.Rf_error "getAttrib: invalid type for TAG")
  else if cells.any (fun c => match c.1 with
      | .SYMSXP _ => true
      | _ => false) then
    .ok (some (cells.map (fun c => match c.1 with
      | .SYMSXP printname => printname
      | _ => "")))
  else .ok none

/-- The string `CHAR(STRING_ELT(x, i))`; the host raises an error when `x` is
`R_NilValue` instead of a character vector. -/
def STRING_ELT (x : Option (List String)) (i : Nat) : Res String :=
  match x with
  | some elts => .ok (elts.getD i "")
  | none => .throw (.Rf_error "STRING_ELT() can only be applied to a character vector")

/-- The method `get_element_name` (Serialize.cpp lines 174-182). -/
def get_element_name (names : Option (List String)) (i : Nat) : String :=
  match names with
  | none => ""
  | some elts => elts.getD i ""

/-- The method `concatenate` (Serialize.cpp lines 198-207). -/
def concatenate : List String → String → String
  | [], _ => ""
  | x :: rest, sep => x ++ (if rest.isEmpty then "" else sep) ++ concatenate rest sep

/-- The function `environment_name` (utils.cpp lines 25-35). -/
def environment_name (rt : Runtime) (env : Nat) : String :=
  if R_IsPackageEnv rt env = true then R_PackageEnvName rt env
  else if R_IsNamespaceEnv rt env = true then R_NamespaceEnvSpec rt env
  else ""

/-- The function `environment_name_as_code` (utils.cpp lines 38-53). -/
def environment_name_as_code (rt : Runtime) (env : Nat) : String :=
  if env = rt.R_EmptyEnv then "emptyenv()"
  else if env = rt.R_GlobalEnv then ".GlobalEnv"
  else if env = rt.R_BaseEnv ∨ env = rt.R_BaseNamespace then ".BaseNamespaceEnv"
  else
    let name := environment_name rt env
    if name ≠ "" then "as.environment(\"" ++ name ++ "\")" else ""

/-- The method `extract_closure` (Serialize.cpp lines 184-196): the closure
returned by the R function, without the marker attribute. -/
def extract_closure (rt : Runtime) (f : SEXP) : SEXP :=
  let extracted := rt.extract_closure_r f
  .CLOSXP extracted.1 extracted.2.1 extracted.2.2.1
    (extracted.2.2.2.filter (fun a => a.1 ≠ "genthat_extracted_closure"))

/-- The environment `CLOENV(extract_closure(fun))`. -/
def extract_closure_env (rt : Runtime) (f : SEXP) : Nat :=
  (rt.extract_closure_r f).2.2.1

/-! ## The method `serialize` -/

/-- The loop of the `VECSXP` case (Serialize.cpp lines 225-232) from index
`i` on, over the remaining elements, with the accumulator `args`. -/
def vecsxp_loop (ser : Ser) (names : Option (List String)) :
    Nat → List SEXP → String → Visited → Res (String × Visited)
  | _, [], args, visited => .ok (args, visited)
  | i, elt :: rest, args, visited =>
      match ser elt true visited with
      | .ok (value, visited) =>
          let name := escape_name (get_element_name names i)
          vecsxp_loop ser names (i + 1) rest
            (args ++ (if name = "" then name else name ++ "=") ++ value
              ++ (if rest.isEmpty then "" else ", "))
            visited
      | .throw e => .throw e
      | .diverge => .diverge

/-- The loop of the `ENVSXP` case (Serialize.cpp lines 270-276) over the
remaining bindings, with the accumulator `elems`. -/
def envsxp_loop (ser : Ser) :
    List (String × SEXP) → String → Visited → Res (String × Visited)
  | [], elems, visited => .ok (elems, visited)
  | (key, value) :: rest, elems, visited =>
      match ser value true visited with
      | .ok (printed, visited) =>
          envsxp_loop ser rest
            (elems ++ (escape_name key ++ "=" ++ printed) ++ (if rest.isEmpty then "" else ", "))
            visited
      | .throw e => .throw e
      | .diverge => .diverge

/-- The loop of the `LISTSXP` case (Serialize.cpp lines 318-326) from index
`i` on, over the remaining cells, with the stream `outStr`. -/
def listsxp_loop (ser : Ser) (names : Option (List String)) :
    Nat → List (SEXP × SEXP) → String → Visited → Res (String × Visited)
  | _, [], outStr, visited => .ok (outStr, visited)
  | i, con :: rest, outStr, visited =>
      let outStr := if i ≠ 0 then outStr ++ ", " else outStr
      match STRING_ELT names i with
      | .ok element_name =>
          let outStr := outStr ++ escape_name element_name ++ " = "
          match ser con.2 false visited with
          | .ok (val, visited) =>
              listsxp_loop ser names (i + 1) rest (if val ≠ "" then outStr ++ val else outStr)
                visited
          | .throw e => .throw e
          | .diverge => .diverge
      | .throw e => .throw e
      | .diverge => .diverge

/-- The cells of a value used as a pairlist (`CAR(s)` of a `function` call);
following `CDR` through a value that is not a list is outside the contract of
the host API and is reported as a host error. -/
def pairlist_cells : SEXP → Res (List (SEXP × SEXP))
  | .NILSXP => .ok []
  | .LISTSXP cells => .ok cells
  | .LANGSXP car cdr => .ok ((.NILSXP, car) :: cdr)
  | _ => .throw (.Rf_error "CAR/CDR/TAG applied to a value that is not a list")

/-- The value `CAR(s)` of a list of cells; `CAR(R_NilValue)` is `R_NilValue`. -/
def CAR (s : List (SEXP × SEXP)) : SEXP :=
  match s with
  | [] => .NILSXP
  | cell :: _ => cell.2

/-- The cells `CDR(s)`; `CDR(R_NilValue)` is `R_NilValue`. -/
def CDR (s : List (SEXP × SEXP)) : List (SEXP × SEXP) := s.tail

/-- The value `CADR(s)`. -/
def CADR (s : List (SEXP × SEXP)) : SEXP := CAR (CDR s)

/-- The body of the method `Serializer::serialize` (Serialize.cpp lines
214-424); `self` stands for the nested calls of `serialize`.  The operands of
a chain of string `+` are evaluated from left to right. -/
def serialize_body (rt : Runtime) (self : Ser) : Ser :=
  fun s quote visited =>
    match s with
    | .NILSXP => .ok ("NULL", visited)
    | .VECSXP elts attrib =>
        let names := Rf_getAttrib_names attrib
        match vecsxp_loop self names 0 elts "" visited with
        | .ok (args, visited) =>
            wrap_in_attributes self attrib ("list(" ++ args ++ ")") visited
        | .throw e => .throw e
        | .diverge => .diverge
    | .LGLSXP _ | .INTSXP _ | .REALSXP _ | .CPLXSXP _ | .STRSXP _ =>
        .ok (concatenate (rt.Rf_deparse1 s) "\n", visited)
    | .SYMSXP symbol =>
        if symbol = "" then .ok (if quote then "quote(expr=)" else "", visited)
        else .ok (if quote then "quote(" ++ symbol ++ ")" else symbol, visited)
    | .ENVSXP env =>
        if env ∈ visited then .throw .cycle_error
        else
          let visited := insert env visited
          let parent := (rt.frame env).enclos
          match envsxp_loop self (rt.frame env).bindings "" visited with
          | .ok (elems, visited) =>
              let parent_env_arg : Res (String × Visited) :=
                match parent with
                | none => .ok ("", visited)
                | some parent =>
                    if parent ∉ visited then
                      let parent_env : Res (String × Visited) :=
                        if parent = rt.R_EmptyEnv then .ok ("emptyenv()", visited)
                        else if parent = rt.R_GlobalEnv then .ok ("globalenv()", visited)
                        else if parent = rt.R_BaseEnv ∨ parent = rt.R_BaseNamespace then
                          .ok ("baseenv()", visited)
                        else if R_IsPackageEnv rt parent = true then
                          .ok ("as.environment(\"" ++ R_PackageEnvName rt parent ++ "\")", visited)
                        else if R_IsNamespaceEnv rt parent = true then
                          .ok ("getNamespace(\"" ++ R_NamespaceEnvSpec rt parent ++ "\")", visited)
                        else self (.ENVSXP parent) false visited
                      match parent_env with
                      | .ok (parent_env, visited) => .ok (", parent=" ++ parent_env, visited)
                      | .throw e => .throw e
                      | .diverge => .diverge
                    else .ok ("", visited)
              match parent_env_arg with
              | .ok (parent_env_arg, visited) =>
                  .ok ("list2env(list(" ++ elems ++ ")" ++ parent_env_arg ++ ")",
                       visited.erase env)
              | .throw e => .throw e
              | .diverge => .diverge
          | .throw e => .throw e
          | .diverge => .diverge
    | .LISTSXP cells =>
        match Rf_getAttrib_names_pairlist cells with
        | .ok names =>
            match listsxp_loop self names 0 cells "\"alist(" visited with
            | .ok (outStr, visited) => .ok (outStr ++ ")\"", visited)
            | .throw e => .throw e
            | .diverge => .diverge
        | .throw e => .throw e
        | .diverge => .diverge
    | .LANGSXP car cdr =>
        match self car false visited with
        | .ok (f, visited) =>
            let s := cdr
            if is_infix_fun f = true then
              let lhs := CAR s
              let rhs := CADR s
              let space := if is_infix_fun_no_space f = true then "" else " "
              match self lhs false visited with
              | .ok (l, visited) =>
                  match self rhs false visited with
                  | .ok (r, visited) => .ok (l ++ space ++ f ++ space ++ r, visited)
                  | .throw e => .throw e
                  | .diverge => .diverge
              | .throw e => .throw e
              | .diverge => .diverge
            else if f.data.head? = some '[' then
              match self (CAR s) false visited with
              | .ok (collection, visited) =>
                  match format_arguments self (CDR s) ", " visited with
                  | .ok (subset, visited) =>
                      if f = "[" then .ok (collection ++ f ++ subset ++ "]", visited)
                      else if f = "[[" then .ok (collection ++ f ++ subset ++ "]]", visited)
                      else .throw (.serialization_error ("Unknown sub-setting operator: " ++ f))
                  | .throw e => .throw e
                  | .diverge => .diverge
              | .throw e => .throw e
              | .diverge => .diverge
            else if f = "function" then
              match pairlist_cells (CAR s) with
              | .ok formals =>
                  match format_arguments self formals ", " visited with
                  | .ok (args, visited) =>
                      match self (CADR s) false visited with
                      | .ok (body, visited) => .ok (f ++ "(" ++ args ++ ") " ++ body, visited)
                      | .throw e => .throw e
                      | .diverge => .diverge
                  | .throw e => .throw e
                  | .diverge => .diverge
              | .throw e => .throw e
              | .diverge => .diverge
            else if f = "\x7b" then
              match format_arguments self s "\n\t" visited with
              | .ok (args, visited) => .ok ("\x7b\n\t" ++ args ++ "\n\x7d", visited)
              | .throw e => .throw e
              | .diverge => .diverge
            else if f = "(" then
              match format_arguments self s ", " visited with
              | .ok (args, visited) => .ok ("(" ++ args ++ ")", visited)
              | .throw e => .throw e
              | .diverge => .diverge
            else
              match format_arguments self s ", " visited with
              | .ok (args, visited) => .ok (f ++ "(" ++ args ++ ")", visited)
              | .throw e => .throw e
              | .diverge => .diverge
        | .throw e => .throw e
        | .diverge => .diverge
    | .SPECIALSXP => .throw (.sexp_not_supported_error "SPECIALSXP")
    | .BUILTINSXP => .throw (.sexp_not_supported_error "BUILTINSXP")
    | .EXTPTRSXP => .throw (.sexp_not_supported_error "EXTPTRSXP")
    | .BCODESXP => .throw (.sexp_not_supported_error "BCODESXP")
    | .WEAKREFSXP => .throw (.sexp_not_supported_error "WEAKREFSXP")
    | .CLOSXP _ _ _ _ =>
        let extracted := extract_closure rt s
        let env := extract_closure_env rt s
        let env_code := environment_name_as_code rt env
        let env_code : Res (String × Visited) :=
          if env_code = "" then self (.ENVSXP env) false visited
          else .ok (env_code, visited)
        match env_code with
        | .ok (env_code, visited) =>
            let fun_code := concatenate (rt.Rf_deparse1 extracted) "\n"
            .ok ("genthat::with_env(" ++ fun_code ++ ", env=" ++ env_code ++ ")", visited)
        | .throw e => .throw e
        | .diverge => .diverge
    | .DOTSXP => .throw (.sexp_not_supported_error "DOTSXP")
    | .CHARSXP => .throw (.sexp_not_supported_error "CHARSXP")
    | .EXPRSXP => .throw (.sexp_not_supported_error "EXPRSXP")
    | .RAWSXP => .throw (.sexp_not_supported_error "RAWSXP")
    | .PROMSXP => .throw (.sexp_not_supported_error "PROMSXP")
    | .S4SXP => .throw (.sexp_not_supported_error "S4SXP")
    | .UNKNOWN _ => .throw (.sexp_not_supported_error "unknown")

/-- The method `Serializer::serialize`, with one unit of fuel per nested
call. -/
def serialize (rt : Runtime) : Nat → Ser
  | 0 => fun _ _ _ => .diverge
  | fuel + 1 => serialize_body rt (serialize rt fuel)

/-- The exported function `serialize_value` (Serialize.cpp lines 428-432): a
fresh serializer, so an empty tracking set, and `quote = false`. -/
def serialize_value (rt : Runtime) (fuel : Nat) (s : SEXP) : Res String :=
  match serialize rt fuel s false ∅ with
  | .ok (text, _) => .ok text
  | .throw e => .throw e
  | .diverge => .diverge

/-! ## Notions used in the statements -/

/-- A serializer that hands back the tracking set it was given. -/
def Ser.Balanced (ser : Ser) : Prop :=
  ∀ s q V t V', ser s q V = .ok (t, V') → V' = V

/-- Every outcome of `ser` other than running out of fuel is also the outcome
of `ser'`. -/
def Ser.le (ser ser' : Ser) : Prop :=
  ∀ s q V, ser s q V ≠ .diverge → ser' s q V = ser s q V

/-- The text `join(sep, parts)`: the parts in order with `sep` between
consecutive ones. -/
def join (sep : String) : List String → String
  | [] => ""
  | [x] => x
  | x :: y :: rest => x ++ sep ++ join sep (y :: rest)

/-- The fixed symbolic form of a well-known root environment: `emptyenv()`
for the empty environment, `globalenv()` for the global one, `baseenv()` for
the base environment or base namespace, `as.environment("<name>")` for a
package environment, `getNamespace("<name>")` for a namespace; `none` for an
environment that is not a well-known root. -/
def root_form (rt : Runtime) (r : Nat) : Option String :=
  if r = rt.R_EmptyEnv then some "emptyenv()"
  else if r = rt.R_GlobalEnv then some "globalenv()"
  else if r = rt.R_BaseEnv ∨ r = rt.R_BaseNamespace then some "baseenv()"
  else if R_IsPackageEnv rt r = true then
    some ("as.environment(\"" ++ R_PackageEnvName rt r ++ "\")")
  else if R_IsNamespaceEnv rt r = true then
    some ("getNamespace(\"" ++ R_NamespaceEnvSpec rt r ++ "\")")
  else none

/-- The printed bindings `escape_name(k) + "=" + text` of an environment,
given the texts of the values. -/
def binding_entries (bindings : List (String × SEXP)) (texts : List String) : List String :=
  List.zipWith (fun b t => escape_name b.1 ++ "=" ++ t) bindings texts

/-! ## Sample runtimes for the concrete cases -/

/-- A sample deparser: a numeric vector of length one prints as its payload,
a character vector of length one as the quoted string, anything else as
`NULL`. -/
def sample_deparse1 : SEXP → List String
  | .REALSXP [x] => [toString x]
  | .INTSXP [x] => [toString x ++ "L"]
  | .STRSXP [x] => ["\"" ++ x ++ "\""]
  | _ => ["NULL"]

/-- A sample runtime over a table of environments: the well-known roots are
the references 100 to 103, outside the table. -/
def sample_runtime (frames : List Frame) : Runtime :=
  { frames := frames
    R_EmptyEnv := 100
    R_GlobalEnv := 101
    R_BaseEnv := 102
    R_BaseNamespace := 103
    Rf_deparse1 := sample_deparse1
    extract_closure_r := fun _ => (.NILSXP, .NILSXP, 100, []) }

/-- One environment, reference 0, with the binding `n = 1`, that is its own
parent. -/
def self_parent_runtime : Runtime :=
  sample_runtime [⟨some 0, [("n", .REALSXP [1])], none, none⟩]

/-- One environment, reference 0, with the binding `n = 1`, whose parent is
the global environment. -/
def global_child_runtime : Runtime :=
  sample_runtime [⟨some 101, [("n", .REALSXP [1])], none, none⟩]

/-- One environment, reference 0, with the binding `n = 1`, that is attached
as `package:foo` and is its own parent. -/
def self_parent_package_runtime : Runtime :=
  sample_runtime [⟨some 0, [("n", .REALSXP [1])], some "package:foo", none⟩]

/-- Two environments: reference 0 has the binding `n = 1` and the plain
environment 1 as parent; reference 1 has no binding and the global
environment as parent. -/
def nested_runtime : Runtime :=
  sample_runtime [⟨some 1, [("n", .REALSXP [1])], none, none⟩, ⟨some 101, [], none, none⟩]

/-- The kinds the serializer declines, each with the name its error carries
(Serialize.cpp lines 380-420). -/
def unsupported_kinds : List (SEXP × String) :=
  [(.SPECIALSXP, "SPECIALSXP"), (.BUILTINSXP, "BUILTINSXP"), (.EXTPTRSXP, "EXTPTRSXP"),
   (.BCODESXP, "BCODESXP"), (.WEAKREFSXP, "WEAKREFSXP"), (.DOTSXP, "DOTSXP"),
   (.CHARSXP, "CHARSXP"), (.EXPRSXP, "EXPRSXP"), (.RAWSXP, "RAWSXP"), (.PROMSXP, "PROMSXP"),
   (.S4SXP, "S4SXP")]

/-- A list `list(a = 1)` whose attributes are `class`, then `names`: the
order in which `class(x) <- "foo"; names(x) <- "a"` leaves them. -/
def classed_list : SEXP :=
  .VECSXP [.REALSXP [1]] [("class", .STRSXP ["foo"]), ("names", .STRSXP ["a"])]

/-- One environment, reference 0, whose only binding `x` is the list of a
builtin and the environment itself. -/
def builtin_before_self_runtime : Runtime :=
  sample_runtime [⟨none, [("x", .VECSXP [.BUILTINSXP, .ENVSXP 0] [])], none, none⟩]

/-- One environment, reference 0, whose binding `a` is a number and whose
binding `x` is a list holding a number and a list that holds the environment
itself. -/
def nested_self_runtime : Runtime :=
  sample_runtime
    [⟨none, [("a", .REALSXP [1]), ("x", .VECSXP [.REALSXP [2], .VECSXP [.ENVSXP 0] []] [])],
      none, none⟩]

/-- The value `v`, serialized on the tracking set `V`, reaches an environment
that is being rendered: `v` is an active environment; or a list with such a
value as an element, the elements before it serializing successfully; or an
environment that is not active and has such a value bound, the bindings
enumerated before it serializing successfully. -/
inductive ReachesActive (rt : Runtime) : Visited → SEXP → Prop where
  | active {V : Visited} {e : Nat} : e ∈ V → ReachesActive rt V (.ENVSXP e)
  | element {V : Visited} {pre : List SEXP} {w : SEXP} {post : List SEXP}
      {attrib : List (String × SEXP)} :
      (∀ x ∈ pre, ∃ n p, serialize rt n x true V = .ok p) →
      ReachesActive rt V w →
      ReachesActive rt V (.VECSXP (pre ++ w :: post) attrib)
  | binding {V : Visited} {f : Nat} {pre : List (String × SEXP)} {key : String} {w : SEXP}
      {post : List (String × SEXP)} :
      f ∉ V →
      (rt.frame f).bindings = pre ++ (key, w) :: post →
      (∀ b ∈ pre, ∃ n p, serialize rt n b.2 true (insert f V) = .ok p) →
      ReachesActive rt (insert f V) w →
      ReachesActive rt V (.ENVSXP f)

/-! ## The measure that bounds the recursion depth -/

mutual
/-- The structural size of a value, an environment reference counting one. -/
def SEXP.size : SEXP → Nat
  | .LISTSXP cells => 1 + size_cells cells
  | .CLOSXP formals body _ attrib => 2 + formals.size + body.size + size_attrib attrib
  | .LANGSXP car cdr => 1 + car.size + size_cells cdr
  | .VECSXP elts attrib => 1 + size_elts elts + size_attrib attrib
  | _ => 1
/-- The size of a list of cells `(TAG, CAR)`. -/
def size_cells : List (SEXP × SEXP) → Nat
  | [] => 0
  | (tag, car) :: rest => 1 + tag.size + car.size + size_cells rest
/-- The size of the elements of a generic vector. -/
def size_elts : List SEXP → Nat
  | [] => 0
  | elt :: rest => 1 + elt.size + size_elts rest
/-- The size of a list of attributes. -/
def size_attrib : List (String × SEXP) → Nat
  | [] => 0
  | (_, car) :: rest => 1 + car.size + size_attrib rest
end

/-- A bound on the size of every value bound in the table of environments. -/
def Runtime.binding_bound (rt : Runtime) : Nat :=
  (rt.frames.map (fun f => (f.bindings.map (fun b => b.2.size)).sum)).sum

/-- The number of environments of the table that are not being rendered. -/
def Runtime.unvisited (rt : Runtime) (V : Visited) : Nat :=
  ((Finset.range rt.frames.length) \ V).card

/-- Fuel that suffices to serialize `v` on the tracking set `V`. -/
def fuel_bound (rt : Runtime) (V : Visited) (v : SEXP) : Nat :=
  v.size + 1 + rt.unvisited V * (rt.binding_bound + 1)

/-! ## Infix expressions over symbols -/

/-- Call expressions built only from symbols and two-operand applications. -/
inductive InfixExpr where
  | sym (name : String) : InfixExpr
  | app (op : String) (lhs rhs : InfixExpr) : InfixExpr
  deriving DecidableEq, Repr

/-- The host value of an expression: a symbol, or the call whose head is the
operator symbol and whose two untagged arguments are the operands. -/
def InfixExpr.toSEXP : InfixExpr → SEXP
  | .sym name => .SYMSXP name
  | .app op lhs rhs => .LANGSXP (.SYMSXP op) [(.NILSXP, lhs.toSEXP), (.NILSXP, rhs.toSEXP)]

/-- A valid, non-reserved symbol name: non-empty, outside `KEYWORDS`, and
matching `VALID_NAME`. -/
def valid_symbol_name (name : String) : Bool :=
  decide (name ≠ "") && decide (name ∉ KEYWORDS) && regex_match name VALID_NAME

/-- Every symbol has a valid non-reserved name and every operator is in the
infix set. -/
def InfixExpr.well_formed : InfixExpr → Bool
  | .sym name => valid_symbol_name name
  | .app op lhs rhs => is_infix_fun op && lhs.well_formed && rhs.well_formed

/-- Every bracket expression of `r` only holds characters satisfying `P`. -/
def Regex.AllCls (P : Char → Prop) : Regex → Prop
  | .nothing => True
  | .eps => True
  | .cls rs => ∀ c, inClass rs c = true → P c
  | .seq r₁ r₂ => r₁.AllCls P ∧ r₂.AllCls P
  | .alt r₁ r₂ => r₁.AllCls P ∧ r₂.AllCls P
  | .star r => r.AllCls P

/-- An expression that visibly matches no word. -/
def Regex.Void : Regex → Prop
  | .nothing => True
  | .eps => False
  | .cls _ => False
  | .seq r₁ r₂ => r₁.Void ∨ r₂.Void
  | .alt r₁ r₂ => r₁.Void ∧ r₂.Void
  | .star _ => False

/-- The characters of `[a-zA-Z0-9._]`. -/
def is_word_char (c : Char) : Bool :=
  inClass [('a', 'z'), ('A', 'Z'), ('0', '9'), ('.', '.'), ('_', '_')] c

/-- The characters printed between the operands of an infix application:
the operator, between blanks unless it is in the no-space set. -/
def infix_middle (op : String) : List Char :=
  (if is_infix_fun_no_space op = true then [] else [' ']) ++ op.data
    ++ (if is_infix_fun_no_space op = true then [] else [' '])

/-- The expression `a + b + c` read as `(a + b) + c`. -/
def sum_left : InfixExpr :=
  .app "+" (.app "+" (.sym "a") (.sym "b")) (.sym "c")

/-- The expression `a + b + c` read as `a + (b + c)`. -/
def sum_right : InfixExpr :=
  .app "+" (.sym "a") (.app "+" (.sym "b") (.sym "c"))

/-- The printed elements of a list, given the texts of the elements: the text
alone when the names are absent or the name is empty, and
`escape_name(n) + "=" + text` otherwise. -/
def list_entries : Option (List String) → List String → List String
  | none, texts => texts
  | some names, texts =>
      List.zipWith (fun n t => if n = "" then t else escape_name n ++ "=" ++ t) names texts

/-- The attributes of a list that carries nothing but its optional names. -/
def names_only_attrib : Option (List String) → List (String × SEXP)
  | none => []
  | some names => [("names", .STRSXP names)]

/-- The printed entries `escape_name(n) + " = " + text` of a pairlist, given
the names and the texts of the values. -/
def pairlist_entries (names : List String) (texts : List String) : List String :=
  List.zipWith (fun n t => escape_name n ++ " = " ++ t) names texts

/-- The name of a pairlist cell: the print name of its tag, blank for an
absent tag. -/
def cell_name (c : SEXP × SEXP) : String :=
  match c.1 with
  | .SYMSXP printname => printname
  | _ => ""

/-- The pairlist `pairlist(1, 2)`, no cell of which has a tag. -/
def untagged_pairlist : SEXP :=
  .LISTSXP [(.NILSXP, .REALSXP [1]), (.NILSXP, .REALSXP [2])]

/-- The pairlist `pairlist(x = 1, 2)`, whose first cell has the tag `x`. -/
def tagged_pairlist : SEXP :=
  .LISTSXP [(.SYMSXP "x", .REALSXP [1]), (.NILSXP, .REALSXP [2])]

/-! ## The identifier grammar in words -/

/-- An ASCII letter. -/
def is_ascii_letter (c : Char) : Bool :=
  (decide ('a'.toNat ≤ c.toNat) && decide (c.toNat ≤ 'z'.toNat)) ||
    (decide ('A'.toNat ≤ c.toNat) && decide (c.toNat ≤ 'Z'.toNat))

/-- An ASCII digit. -/
def is_ascii_digit (c : Char) : Bool :=
  decide ('0'.toNat ≤ c.toNat) && decide (c.toNat ≤ '9'.toNat)

/-- The identifier grammar as described in prose: the string is non-empty,
every character is an ASCII letter, digit, dot or underscore, the first
character is a letter or a dot, and when the first character is a dot and a
second character exists, that second character is not a digit. -/
def identifier_grammar (name : String) : Bool :=
  match name.data with
  | [] => false
  | c :: rest =>
      (c :: rest).all (fun x => is_ascii_letter x || is_ascii_digit x || x == '.' || x == '_') &&
        (is_ascii_letter c || c == '.') &&
        (match rest with
          | [] => true
          | d :: _ => !(c == '.' && is_ascii_digit d))

/-! ## Theorems -/

/-! ### Identifier escaping -/

/-- Wrapping in backticks changes a name. -/
theorem backtick_wrap_ne (name : String) : "`" ++ name ++ "`" ≠ name := by
  intro h
  have := congrArg String.length h
  rw [String.length_append, String.length_append] at this
  have h1 : ("`" : String).length = 1 := by decide
  omega

/-- C1: `escape_name` returns the empty name unchanged; a non-empty name comes
back wrapped in backticks exactly when it is in `KEYWORDS` or does not match
`VALID_NAME`; a non-empty, non-reserved, matching name comes back unchanged. -/
theorem escape_name_reference (name : String) :
    (name = "" → escape_name name = name) ∧
    (name ≠ "" →
      (escape_name name = "`" ++ name ++ "`" ↔
        (name ∈ KEYWORDS ∨ regex_match name VALID_NAME = false))) ∧
    (name ≠ "" → name ∉ KEYWORDS → regex_match name VALID_NAME = true →
      escape_name name = name) := by
  refine ⟨?_, ?_, ?_⟩
  · intro h
    simp [escape_name, h]
  · intro h
    by_cases hk : name ∈ KEYWORDS ∨ ¬ regex_match name VALID_NAME = true
    · have hk2 : name ∈ KEYWORDS ∨ regex_match name VALID_NAME = false := by
        rcases hk with hk | hk
        · exact Or.inl hk
        · exact Or.inr (by simpa using hk)
      simp only [escape_name, if_neg h, if_pos hk, true_iff]
      exact hk2
    · have hk2 : ¬ (name ∈ KEYWORDS ∨ regex_match name VALID_NAME = false) := by
        intro h2
        apply hk
        rcases h2 with h2 | h2
        · exact Or.inl h2
        · exact Or.inr (by simp [h2])
      simp only [escape_name, if_neg h, if_neg hk]
      constructor
      · intro h3
        exact absurd h3.symm (backtick_wrap_ne name)
      · intro h3
        exact absurd h3 hk2
  · intro h hk hm
    have : ¬ (name ∈ KEYWORDS ∨ ¬ regex_match name VALID_NAME = true) := by
      intro h2
      rcases h2 with h2 | h2
      · exact hk h2
      · exact h2 hm
    simp only [escape_name, if_neg h, if_neg this]

/-! ### The tracking set is restored by every call that returns -/

theorem wrap_in_attributes_loop_balanced {ser : Ser} (hser : ser.Balanced) :
    ∀ (attrib : List (String × SEXP)) (elems : String) (V : Visited) (t : String) (V' : Visited),
      wrap_in_attributes_loop ser attrib elems V = .ok (t, V') → V' = V := by
  intro attrib
  induction attrib with
  | nil =>
      intro elems V t V' h
      simp only [wrap_in_attributes_loop, Res.ok.injEq, Prod.mk.injEq] at h
      exact h.2.symm
  | cons a cdr ih =>
      intro elems V t V' h
      obtain ⟨tag, car⟩ := a
      simp only [wrap_in_attributes_loop] at h
      split at h
      · exact ih _ _ _ _ h
      · split at h
        · exact ih _ _ _ _ h
        · split at h
          · rename_i value V1 hv
            have h1 := hser _ _ _ _ _ hv
            have h2 := ih _ _ _ _ h
            rw [h2, h1]
          · exact absurd h (by simp)
          · exact absurd h (by simp)

theorem wrap_in_attributes_balanced {ser : Ser} (hser : ser.Balanced)
    (attrib : List (String × SEXP)) (s_str : String) (V : Visited) (t : String) (V' : Visited)
    (h : wrap_in_attributes ser attrib s_str V = .ok (t, V')) : V' = V := by
  simp only [wrap_in_attributes] at h
  split at h
  · rename_i elems V1 hl
    have h1 := wrap_in_attributes_loop_balanced hser _ _ _ _ _ hl
    simp only [Res.ok.injEq, Prod.mk.injEq] at h
    rw [← h.2, h1]
  · exact absurd h (by simp)
  · exact absurd h (by simp)

theorem format_argument_balanced {ser : Ser} (hser : ser.Balanced)
    (arg : SEXP × SEXP) (V : Visited) (t : String) (V' : Visited)
    (h : format_argument ser arg V = .ok (t, V')) : V' = V := by
  simp only [format_argument] at h
  split at h
  · rename_i name V1 hn
    split at h
    · rename_i value V2 hv
      have h2 := hser _ _ _ _ _ hv
      simp only [Res.ok.injEq, Prod.mk.injEq] at h
      have h1 : V1 = V := by
        split at hn
        · simp only [Res.ok.injEq, Prod.mk.injEq] at hn
          exact hn.2.symm
        · split at hn
          · rename_i printed V3 hp
            have h3 := hser _ _ _ _ _ hp
            simp only [Res.ok.injEq, Prod.mk.injEq] at hn
            rw [← hn.2, h3]
          · exact absurd hn (by simp)
          · exact absurd hn (by simp)
        · exact absurd hn (by simp)
      rw [← h.2, h2, h1]
    · exact absurd h (by simp)
    · exact absurd h (by simp)
  · exact absurd h (by simp)
  · exact absurd h (by simp)

theorem format_arguments_loop_balanced {ser : Ser} (hser : ser.Balanced) (sep : String) :
    ∀ (args : List (SEXP × SEXP)) (res : String) (V : Visited) (t : String) (V' : Visited),
      format_arguments_loop ser sep args res V = .ok (t, V') → V' = V := by
  intro args
  induction args with
  | nil =>
      intro res V t V' h
      simp only [format_arguments_loop, Res.ok.injEq, Prod.mk.injEq] at h
      exact h.2.symm
  | cons arg cdr ih =>
      intro res V t V' h
      simp only [format_arguments_loop] at h
      split at h
      · rename_i formatted V1 hf
        have h1 := format_argument_balanced hser _ _ _ _ hf
        have h2 := ih _ _ _ _ h
        rw [h2, h1]
      · exact absurd h (by simp)
      · exact absurd h (by simp)

theorem format_arguments_balanced {ser : Ser} (hser : ser.Balanced) (args : List (SEXP × SEXP))
    (sep : String) (V : Visited) (t : String) (V' : Visited)
    (h : format_arguments ser args sep V = .ok (t, V')) : V' = V :=
  format_arguments_loop_balanced hser sep args "" V t V' h

theorem vecsxp_loop_balanced {ser : Ser} (hser : ser.Balanced) (names : Option (List String)) :
    ∀ (elts : List SEXP) (i : Nat) (args : String) (V : Visited) (t : String) (V' : Visited),
      vecsxp_loop ser names i elts args V = .ok (t, V') → V' = V := by
  intro elts
  induction elts with
  | nil =>
      intro i args V t V' h
      simp only [vecsxp_loop, Res.ok.injEq, Prod.mk.injEq] at h
      exact h.2.symm
  | cons elt rest ih =>
      intro i args V t V' h
      simp only [vecsxp_loop] at h
      split at h
      · rename_i value V1 hv
        have h1 := hser _ _ _ _ _ hv
        have h2 := ih _ _ _ _ _ h
        rw [h2, h1]
      · exact absurd h (by simp)
      · exact absurd h (by simp)

theorem envsxp_loop_balanced {ser : Ser} (hser : ser.Balanced) :
    ∀ (bindings : List (String × SEXP)) (elems : String) (V : Visited) (t : String)
      (V' : Visited), envsxp_loop ser bindings elems V = .ok (t, V') → V' = V := by
  intro bindings
  induction bindings with
  | nil =>
      intro elems V t V' h
      simp only [envsxp_loop, Res.ok.injEq, Prod.mk.injEq] at h
      exact h.2.symm
  | cons b rest ih =>
      intro elems V t V' h
      obtain ⟨key, value⟩ := b
      simp only [envsxp_loop] at h
      split at h
      · rename_i printed V1 hv
        have h1 := hser _ _ _ _ _ hv
        have h2 := ih _ _ _ _ h
        rw [h2, h1]
      · exact absurd h (by simp)
      · exact absurd h (by simp)

theorem listsxp_loop_balanced {ser : Ser} (hser : ser.Balanced) (names : Option (List String)) :
    ∀ (cells : List (SEXP × SEXP)) (i : Nat) (outStr : String) (V : Visited) (t : String)
      (V' : Visited), listsxp_loop ser names i cells outStr V = .ok (t, V') → V' = V := by
  intro cells
  induction cells with
  | nil =>
      intro i outStr V t V' h
      simp only [listsxp_loop, Res.ok.injEq, Prod.mk.injEq] at h
      exact h.2.symm
  | cons con rest ih =>
      intro i outStr V t V' h
      simp only [listsxp_loop] at h
      split at h
      · split at h
        · rename_i val V1 hv
          have h1 := hser _ _ _ _ _ hv
          have h2 := ih _ _ _ _ _ h
          rw [h2, h1]
        · exact absurd h (by simp)
        · exact absurd h (by simp)
      · exact absurd h (by simp)
      · exact absurd h (by simp)

theorem serialize_body_balanced (rt : Runtime) {self : Ser} (ih : self.Balanced) :
    (serialize_body rt self).Balanced := by
      intro s q V t V' h
      cases s
      case NILSXP =>
        simp only [serialize_body, Res.ok.injEq, Prod.mk.injEq] at h
        exact h.2.symm
      case SYMSXP printname =>
        simp only [serialize_body] at h
        split at h <;> simp only [Res.ok.injEq, Prod.mk.injEq] at h <;> exact h.2.symm
      case LISTSXP cells =>
        simp only [serialize_body] at h
        split at h
        · split at h
          · rename_i outStr V1 hl
            have h1 := listsxp_loop_balanced ih _ _ _ _ _ _ _ hl
            simp only [Res.ok.injEq, Prod.mk.injEq] at h
            rw [← h.2, h1]
          · exact absurd h (by simp)
          · exact absurd h (by simp)
        · exact absurd h (by simp)
        · exact absurd h (by simp)
      case CLOSXP formals body cloenv attrib =>
        simp only [serialize_body] at h
        split at h
        · rename_i env_code V1 he
          simp only [Res.ok.injEq, Prod.mk.injEq] at h
          rw [← h.2]
          split at he
          · exact ih _ _ _ _ _ he
          · simp only [Res.ok.injEq, Prod.mk.injEq] at he
            exact he.2.symm
        · exact absurd h (by simp)
        · exact absurd h (by simp)
      case ENVSXP env =>
        simp only [serialize_body] at h
        split at h
        · exact absurd h (by simp)
        · rename_i hnv
          split at h
          · rename_i elems V1 hl
            have h1 := envsxp_loop_balanced ih _ _ _ _ _ hl
            subst h1
            split at h
            · rename_i pea V2 hp
              simp only [Res.ok.injEq, Prod.mk.injEq] at h
              have h2 : V2 = insert env V := by
                split at hp
                · simp only [Res.ok.injEq, Prod.mk.injEq] at hp
                  exact hp.2.symm
                · split at hp
                  · split at hp
                    · rename_i pe V3 hpe
                      simp only [Res.ok.injEq, Prod.mk.injEq] at hp
                      rw [← hp.2]
                      split at hpe
                      · simp only [Res.ok.injEq, Prod.mk.injEq] at hpe
                        exact hpe.2.symm
                      · split at hpe
                        · simp only [Res.ok.injEq, Prod.mk.injEq] at hpe
                          exact hpe.2.symm
                        · split at hpe
                          · simp only [Res.ok.injEq, Prod.mk.injEq] at hpe
                            exact hpe.2.symm
                          · split at hpe
                            · simp only [Res.ok.injEq, Prod.mk.injEq] at hpe
                              exact hpe.2.symm
                            · split at hpe
                              · simp only [Res.ok.injEq, Prod.mk.injEq] at hpe
                                exact hpe.2.symm
                              · exact ih _ _ _ _ _ hpe
                    · exact absurd hp (by simp)
                    · exact absurd hp (by simp)
                  · simp only [Res.ok.injEq, Prod.mk.injEq] at hp
                    exact hp.2.symm
              rw [← h.2, h2]
              exact Finset.erase_insert hnv
            · exact absurd h (by simp)
            · exact absurd h (by simp)
          · exact absurd h (by simp)
          · exact absurd h (by simp)
      case LANGSXP car cdr =>
        simp only [serialize_body] at h
        split at h
        · rename_i f V1 hf
          have h1 := ih _ _ _ _ _ hf
          subst h1
          split at h
          · split at h
            · rename_i l V2 hl
              have h2 := ih _ _ _ _ _ hl
              subst h2
              split at h
              · rename_i r V3 hr
                have h3 := ih _ _ _ _ _ hr
                simp only [Res.ok.injEq, Prod.mk.injEq] at h
                rw [← h.2, h3]
              · exact absurd h (by simp)
              · exact absurd h (by simp)
            · exact absurd h (by simp)
            · exact absurd h (by simp)
          · split at h
            · split at h
              · rename_i c V2 hc
                have h2 := ih _ _ _ _ _ hc
                subst h2
                split at h
                · rename_i sub V3 hs
                  have h3 := format_arguments_balanced ih _ _ _ _ _ hs
                  subst h3
                  split at h
                  · simp only [Res.ok.injEq, Prod.mk.injEq] at h
                    exact h.2.symm
                  · split at h
                    · simp only [Res.ok.injEq, Prod.mk.injEq] at h
                      exact h.2.symm
                    · exact absurd h (by simp)
                · exact absurd h (by simp)
                · exact absurd h (by simp)
              · exact absurd h (by simp)
              · exact absurd h (by simp)
            · split at h
              · split at h
                · split at h
                  · rename_i args V2 ha
                    have h2 := format_arguments_balanced ih _ _ _ _ _ ha
                    subst h2
                    split at h
                    · rename_i body V3 hb
                      have h3 := ih _ _ _ _ _ hb
                      simp only [Res.ok.injEq, Prod.mk.injEq] at h
                      rw [← h.2, h3]
                    · exact absurd h (by simp)
                    · exact absurd h (by simp)
                  · exact absurd h (by simp)
                  · exact absurd h (by simp)
                · exact absurd h (by simp)
                · exact absurd h (by simp)
              · split at h
                · split at h
                  · rename_i args V2 ha
                    have h2 := format_arguments_balanced ih _ _ _ _ _ ha
                    simp only [Res.ok.injEq, Prod.mk.injEq] at h
                    rw [← h.2, h2]
                  · exact absurd h (by simp)
                  · exact absurd h (by simp)
                · split at h
                  · split at h
                    · rename_i args V2 ha
                      have h2 := format_arguments_balanced ih _ _ _ _ _ ha
                      simp only [Res.ok.injEq, Prod.mk.injEq] at h
                      rw [← h.2, h2]
                    · exact absurd h (by simp)
                    · exact absurd h (by simp)
                  · split at h
                    · rename_i args V2 ha
                      have h2 := format_arguments_balanced ih _ _ _ _ _ ha
                      simp only [Res.ok.injEq, Prod.mk.injEq] at h
                      rw [← h.2, h2]
                    · exact absurd h (by simp)
                    · exact absurd h (by simp)
        · exact absurd h (by simp)
        · exact absurd h (by simp)
      case VECSXP elts attrib =>
        simp only [serialize_body] at h
        split at h
        · rename_i args V1 hl
          have h1 := vecsxp_loop_balanced ih _ _ _ _ _ _ _ hl
          have h2 := wrap_in_attributes_balanced ih _ _ _ _ _ h
          rw [h2, h1]
        · exact absurd h (by simp)
        · exact absurd h (by simp)
      all_goals
        simp only [serialize_body, Res.ok.injEq, Prod.mk.injEq] at h
      all_goals first
        | exact h.2.symm
        | exact absurd h (by simp)

theorem serialize_balanced (rt : Runtime) : ∀ fuel, (serialize rt fuel).Balanced := by
  intro fuel
  induction fuel with
  | zero =>
      intro s q V t V' h
      simp [serialize] at h
  | succ fuel ih => exact serialize_body_balanced rt ih

/-! ### More fuel does not change an outcome -/

theorem Ser.le.of_ok {ser ser' : Ser} (hle : Ser.le ser ser') {s : SEXP} {q : Bool}
    {V : Visited} {p : String × Visited} (h : ser s q V = .ok p) : ser' s q V = .ok p := by
  rw [hle s q V (by rw [h]; simp), h]

theorem Ser.le.of_throw {ser ser' : Ser} (hle : Ser.le ser ser') {s : SEXP} {q : Bool}
    {V : Visited} {e : Exception} (h : ser s q V = .throw e) : ser' s q V = .throw e := by
  rw [hle s q V (by rw [h]; simp), h]

theorem wrap_in_attributes_loop_le {ser ser' : Ser} (hle : Ser.le ser ser') :
    ∀ (attrib : List (String × SEXP)) (elems : String) (V : Visited),
      wrap_in_attributes_loop ser attrib elems V ≠ .diverge →
      wrap_in_attributes_loop ser' attrib elems V = wrap_in_attributes_loop ser attrib elems V := by
  intro attrib
  induction attrib with
  | nil => intro elems V _; simp only [wrap_in_attributes_loop]
  | cons a cdr ih =>
      intro elems V h
      obtain ⟨tag, car⟩ := a
      simp only [wrap_in_attributes_loop] at h ⊢
      split
      · rename_i ht
        rw [if_pos ht] at h
        exact ih _ _ h
      · rename_i ht
        rw [if_neg ht] at h
        split
        · rename_i ht2
          rw [if_pos ht2] at h
          exact ih _ _ h
        · rename_i ht2
          rw [if_neg ht2] at h
          cases hv : ser car true V with
          | ok p =>
              obtain ⟨value, V1⟩ := p
              rw [hle.of_ok hv]
              rw [hv] at h
              exact ih _ _ h
          | throw e => rw [hle.of_throw hv]
          | diverge => rw [hv] at h; exact absurd rfl h

theorem wrap_in_attributes_le {ser ser' : Ser} (hle : Ser.le ser ser')
    (attrib : List (String × SEXP)) (s_str : String) (V : Visited)
    (h : wrap_in_attributes ser attrib s_str V ≠ .diverge) :
    wrap_in_attributes ser' attrib s_str V = wrap_in_attributes ser attrib s_str V := by
  simp only [wrap_in_attributes] at h ⊢
  cases hl : wrap_in_attributes_loop ser attrib "" V with
  | ok p => rw [wrap_in_attributes_loop_le hle _ _ _ (by rw [hl]; simp), hl]
  | throw e => rw [wrap_in_attributes_loop_le hle _ _ _ (by rw [hl]; simp), hl]
  | diverge => rw [hl] at h; exact absurd rfl h

theorem format_argument_le {ser ser' : Ser} (hle : Ser.le ser ser')
    (arg : SEXP × SEXP) (V : Visited) (h : format_argument ser arg V ≠ .diverge) :
    format_argument ser' arg V = format_argument ser arg V := by
  obtain ⟨arg_name, arg_value⟩ := arg
  cases arg_name
  case NILSXP =>
    simp only [format_argument] at h ⊢
    cases hv : ser arg_value false V with
    | ok p => rw [hle.of_ok hv]
    | throw e => rw [hle.of_throw hv]
    | diverge => rw [hv] at h; exact absurd rfl h
  case SYMSXP printname =>
    simp only [format_argument] at h ⊢
    cases hn : ser (.SYMSXP printname) false V with
    | ok p =>
        obtain ⟨printed, V1⟩ := p
        rw [hle.of_ok hn]
        rw [hn] at h
        simp only at h ⊢
        cases hv : ser arg_value false V1 with
        | ok p => rw [hle.of_ok hv]
        | throw e => rw [hle.of_throw hv]
        | diverge => rw [hv] at h; exact absurd rfl h
    | throw e => rw [hle.of_throw hn]
    | diverge => rw [hn] at h; exact absurd rfl h
  all_goals simp only [format_argument]

theorem format_arguments_loop_le {ser ser' : Ser} (hle : Ser.le ser ser') (sep : String) :
    ∀ (args : List (SEXP × SEXP)) (res : String) (V : Visited),
      format_arguments_loop ser sep args res V ≠ .diverge →
      format_arguments_loop ser' sep args res V = format_arguments_loop ser sep args res V := by
  intro args
  induction args with
  | nil => intro res V _; simp only [format_arguments_loop]
  | cons arg cdr ih =>
      intro res V h
      simp only [format_arguments_loop] at h ⊢
      cases hf : format_argument ser arg V with
      | ok p =>
          obtain ⟨formatted, V1⟩ := p
          rw [format_argument_le hle _ _ (by rw [hf]; simp), hf]
          rw [hf] at h
          exact ih _ _ h
      | throw e => rw [format_argument_le hle _ _ (by rw [hf]; simp), hf]
      | diverge => rw [hf] at h; exact absurd rfl h

theorem format_arguments_le {ser ser' : Ser} (hle : Ser.le ser ser')
    (args : List (SEXP × SEXP)) (sep : String) (V : Visited)
    (h : format_arguments ser args sep V ≠ .diverge) :
    format_arguments ser' args sep V = format_arguments ser args sep V :=
  format_arguments_loop_le hle sep args "" V h

theorem vecsxp_loop_le {ser ser' : Ser} (hle : Ser.le ser ser') (names : Option (List String)) :
    ∀ (elts : List SEXP) (i : Nat) (args : String) (V : Visited),
      vecsxp_loop ser names i elts args V ≠ .diverge →
      vecsxp_loop ser' names i elts args V = vecsxp_loop ser names i elts args V := by
  intro elts
  induction elts with
  | nil => intro i args V _; simp only [vecsxp_loop]
  | cons elt rest ih =>
      intro i args V h
      simp only [vecsxp_loop] at h ⊢
      cases hv : ser elt true V with
      | ok p =>
          obtain ⟨value, V1⟩ := p
          rw [hle.of_ok hv]
          rw [hv] at h
          exact ih _ _ _ h
      | throw e => rw [hle.of_throw hv]
      | diverge => rw [hv] at h; exact absurd rfl h

theorem envsxp_loop_le {ser ser' : Ser} (hle : Ser.le ser ser') :
    ∀ (bindings : List (String × SEXP)) (elems : String) (V : Visited),
      envsxp_loop ser bindings elems V ≠ .diverge →
      envsxp_loop ser' bindings elems V = envsxp_loop ser bindings elems V := by
  intro bindings
  induction bindings with
  | nil => intro elems V _; simp only [envsxp_loop]
  | cons b rest ih =>
      intro elems V h
      obtain ⟨key, value⟩ := b
      simp only [envsxp_loop] at h ⊢
      cases hv : ser value true V with
      | ok p =>
          obtain ⟨printed, V1⟩ := p
          rw [hle.of_ok hv]
          rw [hv] at h
          exact ih _ _ h
      | throw e => rw [hle.of_throw hv]
      | diverge => rw [hv] at h; exact absurd rfl h

theorem listsxp_loop_le {ser ser' : Ser} (hle : Ser.le ser ser') (names : Option (List String)) :
    ∀ (cells : List (SEXP × SEXP)) (i : Nat) (outStr : String) (V : Visited),
      listsxp_loop ser names i cells outStr V ≠ .diverge →
      listsxp_loop ser' names i cells outStr V = listsxp_loop ser names i cells outStr V := by
  intro cells
  induction cells with
  | nil => intro i outStr V _; simp only [listsxp_loop]
  | cons con rest ih =>
      intro i outStr V h
      simp only [listsxp_loop] at h ⊢
      cases hn : STRING_ELT names i with
      | ok element_name =>
          rw [hn] at h
          simp only at h ⊢
          cases hv : ser con.2 false V with
          | ok p =>
              obtain ⟨val, V1⟩ := p
              rw [hle.of_ok hv]
              rw [hv] at h
              exact ih _ _ _ h
          | throw e => rw [hle.of_throw hv]
          | diverge => rw [hv] at h; exact absurd rfl h
      | throw e => rfl
      | diverge => rfl

theorem serialize_body_le (rt : Runtime) {self self' : Ser} (ih : Ser.le self self') :
    Ser.le (serialize_body rt self) (serialize_body rt self') := by
      intro s q V h
      cases s
      case VECSXP elts attrib =>
        simp only [serialize_body] at h ⊢
        cases hl : vecsxp_loop self (Rf_getAttrib_names attrib) 0 elts "" V with
        | ok p =>
            obtain ⟨args, V1⟩ := p
            rw [vecsxp_loop_le ih _ _ _ _ _ (by rw [hl]; simp), hl]
            rw [hl] at h
            exact wrap_in_attributes_le ih _ _ _ h
        | throw e => rw [vecsxp_loop_le ih _ _ _ _ _ (by rw [hl]; simp), hl]
        | diverge => rw [hl] at h; exact absurd rfl h
      case LISTSXP cells =>
        simp only [serialize_body] at h ⊢
        cases hn : Rf_getAttrib_names_pairlist cells with
        | ok names =>
            rw [hn] at h
            simp only at h ⊢
            cases hl : listsxp_loop self names 0 cells "\"alist(" V with
            | ok p => rw [listsxp_loop_le ih _ _ _ _ _ (by rw [hl]; simp), hl]
            | throw e => rw [listsxp_loop_le ih _ _ _ _ _ (by rw [hl]; simp), hl]
            | diverge => rw [hl] at h; exact absurd rfl h
        | throw e => rfl
        | diverge => rfl
      case CLOSXP formals body cloenv attrib =>
        simp only [serialize_body] at h ⊢
        by_cases hc : environment_name_as_code rt
            (extract_closure_env rt (.CLOSXP formals body cloenv attrib)) = ""
        · simp only [if_pos hc] at h ⊢
          cases he : self
              (.ENVSXP (extract_closure_env rt (.CLOSXP formals body cloenv attrib))) false V with
          | ok p => rw [ih.of_ok he]
          | throw e => rw [ih.of_throw he]
          | diverge => rw [he] at h; exact absurd rfl h
        · simp only [if_neg hc]
      case ENVSXP env =>
        simp only [serialize_body] at h ⊢
        by_cases hnv : env ∈ V
        · simp only [if_pos hnv]
        · simp only [if_neg hnv] at h ⊢
          cases hl : envsxp_loop self (rt.frame env).bindings "" (insert env V) with
          | ok p =>
              obtain ⟨elems, V1⟩ := p
              rw [envsxp_loop_le ih _ _ _ (by rw [hl]; simp), hl]
              rw [hl] at h
              simp only at h ⊢
              cases hp : (rt.frame env).enclos with
              | none => rfl
              | some parent =>
                  rw [hp] at h
                  simp only at h ⊢
                  by_cases hpv : parent ∉ V1
                  · simp only [if_pos hpv] at h ⊢
                    by_cases h1 : parent = rt.R_EmptyEnv
                    · simp only [if_pos h1]
                    · simp only [if_neg h1] at h ⊢
                      by_cases h2 : parent = rt.R_GlobalEnv
                      · simp only [if_pos h2]
                      · simp only [if_neg h2] at h ⊢
                        by_cases h3 : parent = rt.R_BaseEnv ∨ parent = rt.R_BaseNamespace
                        · simp only [if_pos h3]
                        · simp only [if_neg h3] at h ⊢
                          by_cases h4 : R_IsPackageEnv rt parent = true
                          · simp only [if_pos h4]
                          · simp only [if_neg h4] at h ⊢
                            by_cases h5 : R_IsNamespaceEnv rt parent = true
                            · simp only [if_pos h5]
                            · simp only [if_neg h5] at h ⊢
                              cases hr : self (.ENVSXP parent) false V1 with
                              | ok p => rw [ih.of_ok hr]
                              | throw e => rw [ih.of_throw hr]
                              | diverge => rw [hr] at h; exact absurd rfl h
                  · simp only [if_neg hpv]
          | throw e => rw [envsxp_loop_le ih _ _ _ (by rw [hl]; simp), hl]
          | diverge => rw [hl] at h; exact absurd rfl h
      case LANGSXP car cdr =>
        simp only [serialize_body] at h ⊢
        cases hf : self car false V with
        | ok p =>
            obtain ⟨f, V1⟩ := p
            rw [ih.of_ok hf]
            rw [hf] at h
            simp only at h ⊢
            by_cases hi : is_infix_fun f = true
            · simp only [if_pos hi] at h ⊢
              cases hl : self (CAR cdr) false V1 with
              | ok p =>
                  obtain ⟨l, V2⟩ := p
                  rw [ih.of_ok hl]
                  rw [hl] at h
                  simp only at h ⊢
                  cases hr : self (CADR cdr) false V2 with
                  | ok p => rw [ih.of_ok hr]
                  | throw e => rw [ih.of_throw hr]
                  | diverge => rw [hr] at h; exact absurd rfl h
              | throw e => rw [ih.of_throw hl]
              | diverge => rw [hl] at h; exact absurd rfl h
            · simp only [if_neg hi] at h ⊢
              by_cases hb : f.data.head? = some '['
              · simp only [if_pos hb] at h ⊢
                cases hc : self (CAR cdr) false V1 with
                | ok p =>
                    obtain ⟨c, V2⟩ := p
                    rw [ih.of_ok hc]
                    rw [hc] at h
                    simp only at h ⊢
                    cases hs : format_arguments self (CDR cdr) ", " V2 with
                    | ok p => rw [format_arguments_le ih _ _ _ (by rw [hs]; simp), hs]
                    | throw e => rw [format_arguments_le ih _ _ _ (by rw [hs]; simp), hs]
                    | diverge => rw [hs] at h; exact absurd rfl h
                | throw e => rw [ih.of_throw hc]
                | diverge => rw [hc] at h; exact absurd rfl h
              · simp only [if_neg hb] at h ⊢
                by_cases hfn : f = "function"
                · simp only [if_pos hfn] at h ⊢
                  cases hpc : pairlist_cells (CAR cdr) with
                  | ok formals =>
                      rw [hpc] at h
                      simp only at h ⊢
                      cases ha : format_arguments self formals ", " V1 with
                      | ok p =>
                          obtain ⟨args, V2⟩ := p
                          rw [format_arguments_le ih _ _ _ (by rw [ha]; simp), ha]
                          rw [ha] at h
                          simp only at h ⊢
                          cases hbd : self (CADR cdr) false V2 with
                          | ok p => rw [ih.of_ok hbd]
                          | throw e => rw [ih.of_throw hbd]
                          | diverge => rw [hbd] at h; exact absurd rfl h
                      | throw e => rw [format_arguments_le ih _ _ _ (by rw [ha]; simp), ha]
                      | diverge => rw [ha] at h; exact absurd rfl h
                  | throw e => rfl
                  | diverge => rfl
                · simp only [if_neg hfn] at h ⊢
                  by_cases hbr : f = "\x7b"
                  · simp only [if_pos hbr] at h ⊢
                    cases ha : format_arguments self cdr "\n\t" V1 with
                    | ok p => rw [format_arguments_le ih _ _ _ (by rw [ha]; simp), ha]
                    | throw e => rw [format_arguments_le ih _ _ _ (by rw [ha]; simp), ha]
                    | diverge => rw [ha] at h; exact absurd rfl h
                  · simp only [if_neg hbr] at h ⊢
                    by_cases hpar : f = "("
                    · simp only [if_pos hpar] at h ⊢
                      cases ha : format_arguments self cdr ", " V1 with
                      | ok p => rw [format_arguments_le ih _ _ _ (by rw [ha]; simp), ha]
                      | throw e => rw [format_arguments_le ih _ _ _ (by rw [ha]; simp), ha]
                      | diverge => rw [ha] at h; exact absurd rfl h
                    · simp only [if_neg hpar] at h ⊢
                      cases ha : format_arguments self cdr ", " V1 with
                      | ok p => rw [format_arguments_le ih _ _ _ (by rw [ha]; simp), ha]
                      | throw e => rw [format_arguments_le ih _ _ _ (by rw [ha]; simp), ha]
                      | diverge => rw [ha] at h; exact absurd rfl h
        | throw e => rw [ih.of_throw hf]
        | diverge => rw [hf] at h; exact absurd rfl h
      all_goals simp only [serialize_body]

theorem serialize_le_succ (rt : Runtime) :
    ∀ fuel, Ser.le (serialize rt fuel) (serialize rt (fuel + 1)) := by
  intro fuel
  induction fuel with
  | zero =>
      intro s q V h
      exact absurd rfl h
  | succ fuel ih => exact serialize_body_le rt ih

theorem serialize_mono (rt : Runtime) {n m : Nat} (hnm : n ≤ m) (s : SEXP) (q : Bool)
    (V : Visited) (h : serialize rt n s q V ≠ .diverge) :
    serialize rt m s q V = serialize rt n s q V := by
  induction hnm with
  | refl => rfl
  | @step k _ ih =>
      rw [← ih]
      exact serialize_le_succ rt k s q V (by rw [ih]; exact h)

theorem serialize_mono_ok (rt : Runtime) {n m : Nat} (hnm : n ≤ m) {s : SEXP} {q : Bool}
    {V : Visited} {p : String × Visited} (h : serialize rt n s q V = .ok p) :
    serialize rt m s q V = .ok p := by
  rw [serialize_mono rt hnm s q V (by rw [h]; simp), h]

theorem serialize_mono_throw (rt : Runtime) {n m : Nat} (hnm : n ≤ m) {s : SEXP} {q : Bool}
    {V : Visited} {e : Exception} (h : serialize rt n s q V = .throw e) :
    serialize rt m s q V = .throw e := by
  rw [serialize_mono rt hnm s q V (by rw [h]; simp), h]

/-! ### The loops as joins -/

theorem join_cons (sep x : String) (l : List String) :
    join sep (x :: l) = x ++ (if l.isEmpty then "" else sep) ++ join sep l := by
  cases l with
  | nil => simp [join]
  | cons y rest => simp [join]

theorem envsxp_loop_ok {ser : Ser} {V : Visited} :
    ∀ (bindings : List (String × SEXP)) (texts : List String) (elems : String),
      List.Forall₂ (fun b t => ser b.2 true V = .ok (t, V)) bindings texts →
      envsxp_loop ser bindings elems V
        = .ok (elems ++ join ", " (binding_entries bindings texts), V) := by
  intro bindings texts elems h
  induction h generalizing elems with
  | nil => simp [envsxp_loop, binding_entries, join]
  | @cons b t bs ts hb hrest ih =>
      obtain ⟨key, value⟩ := b
      simp only [envsxp_loop, hb]
      rw [ih]
      have hlen : bs.isEmpty = (binding_entries bs ts).isEmpty := by
        cases hrest <;> simp [binding_entries]
      simp only [binding_entries, List.zipWith_cons_cons] at hlen ⊢
      rw [join_cons, hlen]
      simp only [String.append_assoc]

theorem forall₂_restore {α : Type} (rt : Runtime) (fuel : Nat) (V : Visited) (q : Bool)
    (val : α → SEXP) {l : List α} {texts : List String}
    (h : List.Forall₂ (fun b t => ∃ V', serialize rt fuel (val b) q V = .ok (t, V')) l texts) :
    List.Forall₂ (fun b t => serialize rt fuel (val b) q V = .ok (t, V)) l texts := by
  refine List.Forall₂.imp ?_ h
  intro b t hbt
  obtain ⟨V', hV'⟩ := hbt
  have := serialize_balanced rt fuel _ _ _ _ _ hV'
  rw [this] at hV'
  exact hV'

/-! ### Environments whose parent is already being rendered -/

/-- C2 (amended): an environment `e` that is not active while its parent is
`e` itself or an environment still being rendered, and whose bindings
serialize successfully, is returned as `list2env(list(<bindings>))` with no
parent argument, the tracking set is left as it was and no cycle error is
raised; in particular `serialize_value` of an environment that is its own
parent returns that text. -/
theorem envsxp_active_parent_omitted (rt : Runtime) (fuel : Nat) (e p : Nat) (q : Bool)
    (V : Visited) (texts : List String)
    (he : e ∉ V) (hp : (rt.frame e).enclos = some p) (hact : p ∈ insert e V)
    (hb : List.Forall₂
      (fun b t => ∃ V', serialize rt fuel b.2 true (insert e V) = .ok (t, V'))
      (rt.frame e).bindings texts) :
    serialize rt (fuel + 1) (.ENVSXP e) q V
        = .ok ("list2env(list(" ++ join ", " (binding_entries (rt.frame e).bindings texts)
                ++ "))", V) ∧
      (V = ∅ → serialize_value rt (fuel + 1) (.ENVSXP e)
        = .ok ("list2env(list(" ++ join ", " (binding_entries (rt.frame e).bindings texts)
                ++ "))")) := by
  have hloop := @envsxp_loop_ok (serialize rt fuel) (insert e V)
    (rt.frame e).bindings texts ""
    (forall₂_restore rt fuel _ true (fun (b : String × SEXP) => b.2) hb)
  have hmain : serialize rt (fuel + 1) (.ENVSXP e) q V
        = .ok ("list2env(list(" ++ join ", " (binding_entries (rt.frame e).bindings texts)
                ++ "))", V) := by
    simp only [serialize, serialize_body, if_neg he, hloop, hp]
    have hact' : ¬ (p ∉ insert e V) := fun h => h hact
    simp only [if_neg hact', Finset.erase_insert he]
    simp [String.append_assoc]
  refine ⟨hmain, ?_⟩
  intro hV
  subst hV
  have hm2 : serialize rt (fuel + 1) (.ENVSXP e) false ∅
        = .ok ("list2env(list(" ++ join ", " (binding_entries (rt.frame e).bindings texts)
                ++ "))", ∅) := by
    simp only [serialize, serialize_body, if_neg he, hloop, hp]
    have hact' : ¬ (p ∉ insert e (∅ : Visited)) := fun h => h hact
    simp only [if_neg hact', Finset.erase_insert he]
    simp [String.append_assoc]
  simp only [serialize_value, hm2]

theorem serialize_value_mono (rt : Runtime) {n m : Nat} (hnm : n ≤ m) (s : SEXP)
    (h : serialize_value rt n s ≠ .diverge) :
    serialize_value rt m s = serialize_value rt n s := by
  have h1 : serialize rt n s false ∅ ≠ .diverge := by
    intro hd
    apply h
    simp only [serialize_value, hd]
  simp only [serialize_value, serialize_mono rt hnm s false ∅ h1]

theorem serialize_value_zero (rt : Runtime) (s : SEXP) :
    serialize_value rt 0 s = .diverge := rfl

/-- C2 (witness): the environment of `self_parent_runtime`. -/
theorem envsxp_active_parent_omitted_witness :
    serialize self_parent_runtime 2 (.ENVSXP 0) false ∅ = .ok ("list2env(list(n=1))", ∅) ∧
      ((∅ : Visited) = ∅ →
        serialize_value self_parent_runtime 2 (.ENVSXP 0) = .ok "list2env(list(n=1))") :=
  envsxp_active_parent_omitted self_parent_runtime 1 0 0 false ∅ ["1"]
    (by decide) rfl (by decide) (List.Forall₂.cons ⟨_, rfl⟩ List.Forall₂.nil)

/-- C2 (counterexample): the environment 0 of `self_parent_runtime` is its own
parent, `serialize_value` returns text for it, and no amount of fuel makes it
raise the cycle error. -/
theorem self_parent_no_cycle_error :
    (self_parent_runtime.frame 0).enclos = some 0 ∧
      serialize_value self_parent_runtime 2 (.ENVSXP 0) = .ok "list2env(list(n=1))" ∧
      ∀ fuel, serialize_value self_parent_runtime fuel (.ENVSXP 0) ≠ .throw .cycle_error := by
  refine ⟨rfl, by decide, ?_⟩
  intro fuel
  by_cases h : 2 ≤ fuel
  · rw [serialize_value_mono self_parent_runtime h (.ENVSXP 0) (by decide)]
    decide
  · have h' : fuel = 0 ∨ fuel = 1 := by omega
    rcases h' with h' | h' <;> subst h' <;> decide

/-! ### Environments whose parent is a well-known root -/

theorem list2env_text (elems form : String) :
    (Res.ok ("list2env(list(" ++ ("" ++ elems) ++ ")" ++ (", parent=" ++ form) ++ ")") :
        Res String)
      = .ok ("list2env(list(" ++ elems ++ "), parent=" ++ form ++ ")") := by
  congr 1
  apply String.ext
  simp only [String.data_append, List.append_assoc]
  rfl

/-- C10 (amended): for an environment `e` whose parent is a well-known root
`r` other than `e` itself, and whose bindings serialize successfully,
`serialize_value` returns
`list2env(list(<bindings joined by ", ">), parent=<form of r>)`, whatever the
frame of `r` holds. -/
theorem envsxp_root_parent (rt : Runtime) (fuel : Nat) (e r : Nat) (form : String)
    (texts : List String)
    (hp : (rt.frame e).enclos = some r) (hne : r ≠ e) (hroot : root_form rt r = some form)
    (hb : List.Forall₂
      (fun b t => ∃ V', serialize rt fuel b.2 true (insert e ∅) = .ok (t, V'))
      (rt.frame e).bindings texts) :
    serialize_value rt (fuel + 1) (.ENVSXP e)
      = .ok ("list2env(list(" ++ join ", " (binding_entries (rt.frame e).bindings texts)
              ++ "), parent=" ++ form ++ ")") := by
  have hloop := @envsxp_loop_ok (serialize rt fuel) (insert e ∅)
    (rt.frame e).bindings texts ""
    (forall₂_restore rt fuel _ true (fun (b : String × SEXP) => b.2) hb)
  have he : e ∉ (∅ : Visited) := by simp
  have hr : r ∉ insert e (∅ : Visited) := by simp [hne]
  simp only [serialize_value, serialize, serialize_body, if_neg he, hloop, hp, if_pos hr]
  simp only [root_form] at hroot
  by_cases h1 : r = rt.R_EmptyEnv
  · simp only [if_pos h1, Option.some.injEq] at hroot ⊢
    subst hroot
    exact list2env_text _ _
  · simp only [if_neg h1] at hroot ⊢
    by_cases h2 : r = rt.R_GlobalEnv
    · simp only [if_pos h2, Option.some.injEq] at hroot ⊢
      subst hroot
      exact list2env_text _ _
    · simp only [if_neg h2] at hroot ⊢
      by_cases h3 : r = rt.R_BaseEnv ∨ r = rt.R_BaseNamespace
      · simp only [if_pos h3, Option.some.injEq] at hroot ⊢
        subst hroot
        exact list2env_text _ _
      · simp only [if_neg h3] at hroot ⊢
        by_cases h4 : R_IsPackageEnv rt r = true
        · simp only [if_pos h4, Option.some.injEq] at hroot ⊢
          subst hroot
          exact list2env_text _ _
        · simp only [if_neg h4] at hroot ⊢
          by_cases h5 : R_IsNamespaceEnv rt r = true
          · simp only [if_pos h5, Option.some.injEq] at hroot ⊢
            subst hroot
            exact list2env_text _ _
          · simp only [if_neg h5] at hroot
            exact absurd hroot (by simp)

/-- C10 (witness): the binding `n = 1` under the global environment. -/
theorem envsxp_root_parent_witness :
    serialize_value global_child_runtime 2 (.ENVSXP 0)
      = .ok "list2env(list(n=1), parent=globalenv())" :=
  envsxp_root_parent global_child_runtime 1 0 101 "globalenv()" ["1"]
    rfl (by decide) rfl (List.Forall₂.cons ⟨_, rfl⟩ List.Forall₂.nil)

/-- C10 (counterexample): the environment 0 of `self_parent_package_runtime`
has the well-known root `package:foo` as parent (itself) and its binding
serializes, yet the text returned has no parent argument, at every fuel. -/
theorem self_parent_root_omitted :
    (self_parent_package_runtime.frame 0).enclos = some 0 ∧
      root_form self_parent_package_runtime 0 = some "as.environment(\"package:foo\")" ∧
      serialize self_parent_package_runtime 1 (.REALSXP [1]) true (insert 0 ∅) = .ok ("1", insert 0 ∅) ∧
      serialize_value self_parent_package_runtime 2 (.ENVSXP 0) = .ok "list2env(list(n=1))" ∧
      ∀ fuel, serialize_value self_parent_package_runtime fuel (.ENVSXP 0)
        ≠ .ok "list2env(list(n=1), parent=as.environment(\"package:foo\"))" := by
  refine ⟨rfl, by decide, by decide, by decide, ?_⟩
  intro fuel
  by_cases h : 2 ≤ fuel
  · rw [serialize_value_mono self_parent_package_runtime h (.ENVSXP 0) (by decide)]
    decide
  · have h' : fuel = 0 ∨ fuel = 1 := by omega
    rcases h' with h' | h' <;> subst h' <;> decide

/-! ### The tracking set after a call; environments in disjoint branches -/

/-- C7: when `serialize(v, q)` started on the tracking set `S` returns text,
the tracking set after the call is `S` again. -/
theorem tracking_set_restored (rt : Runtime) (fuel : Nat) (v : SEXP) (q : Bool)
    (S S' : Visited) (t : String) (h : serialize rt fuel v q S = .ok (t, S')) : S' = S :=
  serialize_balanced rt fuel v q S t S' h

/-- C7 (witness): the nested environments of `nested_runtime`, started on the
tracking set `{5}`. -/
theorem tracking_set_restored_witness :
    serialize nested_runtime 3 (.ENVSXP 0) false {5}
        = .ok ("list2env(list(n=1), parent=list2env(list(), parent=globalenv()))", {5}) ∧
      ({5} : Visited) = {5} :=
  ⟨by decide, tracking_set_restored nested_runtime 3 (.ENVSXP 0) false {5} {5}
      "list2env(list(n=1), parent=list2env(list(), parent=globalenv()))" (by decide)⟩

theorem serialize_envsxp_quote (rt : Runtime) (fuel : Nat) (e : Nat) (q q' : Bool)
    (V : Visited) :
    serialize rt fuel (.ENVSXP e) q V = serialize rt fuel (.ENVSXP e) q' V := by
  cases fuel with
  | zero => rfl
  | succ n => simp only [serialize, serialize_body]

theorem serialize_value_ok_iff (rt : Runtime) (fuel : Nat) (s : SEXP) (T : String) :
    serialize_value rt fuel s = .ok T ↔ serialize rt fuel s false ∅ = .ok (T, ∅) := by
  constructor
  · intro h
    simp only [serialize_value] at h
    split at h
    · rename_i text V' hs
      have hV := serialize_balanced rt fuel _ _ _ _ _ hs
      simp only [Res.ok.injEq] at h
      rw [hs, hV, h]
    · exact absurd h (by simp)
    · exact absurd h (by simp)
  · intro h
    simp only [serialize_value, h]

/-- C8: when `serialize_value(e)` returns the text `T` for an environment `e`,
`serialize_value` of the unnamed, attribute-free list `[e, e]` returns
`list(T, T)`. -/
theorem envsxp_twice_in_list (rt : Runtime) (fuel : Nat) (e : Nat) (T : String)
    (h : serialize_value rt fuel (.ENVSXP e) = .ok T) :
    serialize_value rt (fuel + 1) (.VECSXP [.ENVSXP e, .ENVSXP e] [])
      = .ok ("list(" ++ T ++ ", " ++ T ++ ")") := by
  have h1 := (serialize_value_ok_iff rt fuel _ T).mp h
  rw [serialize_envsxp_quote rt fuel e false true] at h1
  have hesc : escape_name "" = "" := by decide
  simp only [serialize_value, serialize, serialize_body, vecsxp_loop, h1, Rf_getAttrib_names,
    List.lookup, get_element_name, hesc, wrap_in_attributes, wrap_in_attributes_loop]
  simp [String.append_assoc]

/-- C8 (witness): the environment 0 of `nested_runtime`, twice in a list. -/
theorem envsxp_twice_in_list_witness :
    serialize_value nested_runtime 4 (.VECSXP [.ENVSXP 0, .ENVSXP 0] [])
      = .ok ("list(" ++ "list2env(list(n=1), parent=list2env(list(), parent=globalenv()))"
          ++ ", " ++ "list2env(list(n=1), parent=list2env(list(), parent=globalenv()))" ++ ")") :=
  envsxp_twice_in_list nested_runtime 3 0
    "list2env(list(n=1), parent=list2env(list(), parent=globalenv()))" (by decide)

/-! ### Unsupported kinds -/

theorem vecsxp_loop_throw {ser : Ser} (hser : ser.Balanced) (names : Option (List String))
    (u : SEXP) (post : List SEXP) (V : Visited) (e : Exception)
    (hu : ser u true V = .throw e) :
    ∀ (pre : List SEXP) (i : Nat) (args : String),
      (∀ x ∈ pre, ∃ p, ser x true V = .ok p) →
      vecsxp_loop ser names i (pre ++ u :: post) args V = .throw e := by
  intro pre
  induction pre with
  | nil =>
      intro i args _
      simp only [List.nil_append, vecsxp_loop, hu]
  | cons x rest ih =>
      intro i args hpre
      obtain ⟨p, hp⟩ := hpre x (List.mem_cons_self x rest)
      obtain ⟨t, V'⟩ := p
      have hV := hser _ _ _ _ _ hp
      subst hV
      simp only [List.cons_append, vecsxp_loop, hp]
      exact ih _ _ (fun y hy => hpre y (List.mem_cons_of_mem x hy))

theorem serialize_unsupported (rt : Runtime) (fuel : Nat) (u : SEXP) (kind : String)
    (hk : (u, kind) ∈ unsupported_kinds ∨ ((∃ code, u = .UNKNOWN code) ∧ kind = "unknown"))
    (q : Bool) (V : Visited) :
    serialize rt (fuel + 1) u q V = .throw (.sexp_not_supported_error kind) := by
  rcases hk with hk | ⟨⟨code, hu⟩, hkind⟩
  · simp only [unsupported_kinds, List.mem_cons, Prod.mk.injEq, List.mem_singleton,
      List.not_mem_nil, or_false] at hk
    rcases hk with ⟨h1, h2⟩ | ⟨h1, h2⟩ | ⟨h1, h2⟩ | ⟨h1, h2⟩ | ⟨h1, h2⟩ | ⟨h1, h2⟩ | ⟨h1, h2⟩ |
      ⟨h1, h2⟩ | ⟨h1, h2⟩ | ⟨h1, h2⟩ | ⟨h1, h2⟩ <;> subst h1 <;> subst h2 <;>
      simp only [serialize, serialize_body]
  · subst hu
    subst hkind
    simp only [serialize, serialize_body]

/-- C5: `serialize_value` of a value of an unsupported kind, and of a list
that has such a value as an element after elements that serialize
successfully, raises the unsupported-kind error whose message names the kind
and returns no text; a type code outside the known ones raises it with the
name `unknown`. -/
theorem unsupported_kind_error (rt : Runtime) (fuel : Nat) (u : SEXP) (kind : String)
    (hk : (u, kind) ∈ unsupported_kinds ∨ ((∃ code, u = .UNKNOWN code) ∧ kind = "unknown")) :
    serialize_value rt (fuel + 1) u = .throw (.sexp_not_supported_error kind) ∧
      (∀ (pre post : List SEXP) (attrib : List (String × SEXP)),
        (∀ x ∈ pre, ∃ p, serialize rt (fuel + 1) x true ∅ = .ok p) →
        serialize_value rt (fuel + 2) (.VECSXP (pre ++ u :: post) attrib)
          = .throw (.sexp_not_supported_error kind)) ∧
      (Exception.sexp_not_supported_error kind).what
        = "Serialization error: " ++ ("SEXP type " ++ kind ++ " not supported!") := by
  refine ⟨?_, ?_, rfl⟩
  · simp only [serialize_value, serialize_unsupported rt fuel u kind hk]
  · intro pre post attrib hpre
    have hl := vecsxp_loop_throw (serialize_balanced rt (fuel + 1)) (Rf_getAttrib_names attrib)
      u post ∅ _ (serialize_unsupported rt fuel u kind hk true ∅) pre 0 "" hpre
    have hs : serialize rt (fuel + 2) (.VECSXP (pre ++ u :: post) attrib) false ∅
        = .throw (.sexp_not_supported_error kind) := by
      rw [serialize, serialize_body]
      simp only [hl]
    simp only [serialize_value, hs]

/-- C5 (witness): a builtin on its own, and as second element of a list. -/
theorem unsupported_kind_error_witness :
    serialize_value (sample_runtime []) 1 .BUILTINSXP
        = .throw (.sexp_not_supported_error "BUILTINSXP") ∧
      serialize_value (sample_runtime []) 2
        (.VECSXP [.REALSXP [1], .BUILTINSXP, .REALSXP [2]] [])
        = .throw (.sexp_not_supported_error "BUILTINSXP") ∧
      (Exception.sexp_not_supported_error "BUILTINSXP").what
        = "Serialization error: SEXP type BUILTINSXP not supported!" := by
  have h := unsupported_kind_error (sample_runtime []) 0 .BUILTINSXP "BUILTINSXP"
    (Or.inl (by simp [unsupported_kinds]))
  refine ⟨h.1, ?_, by decide⟩
  exact h.2.1 [.REALSXP [1]] [.REALSXP [2]] []
    (fun x hx => by
      rw [List.mem_singleton] at hx
      subst hx
      exact ⟨_, rfl⟩)

/-! ### Attribute wrapping -/

/-- C4 (the code at the failing input): for `list(a = 1)` with the attributes
`class`, `names` in this order, `wrap_in_attributes` leaves a separator after
the last printed pair, and so does `serialize_value`; the text with `", "`
only between pairs is not what is returned. -/
theorem wrap_in_attributes_trailing_separator :
    wrap_in_attributes (serialize (sample_runtime []) 1)
        [("class", .STRSXP ["foo"]), ("names", .STRSXP ["a"])] "list(a=1)" ∅
        = .ok ("structure(list(a=1), class=\"foo\", )", ∅) ∧
      serialize_value (sample_runtime []) 2 classed_list
        = .ok "structure(list(a=1), class=\"foo\", )" ∧
      serialize_value (sample_runtime []) 2 classed_list
        ≠ .ok "structure(list(a=1), class=\"foo\")" := by
  refine ⟨by decide, by decide, by decide⟩

/-! ### Cycles through bound values -/

theorem envsxp_loop_throw {ser : Ser} (hser : ser.Balanced) (key : String) (w : SEXP)
    (post : List (String × SEXP)) (V : Visited) (e : Exception)
    (hw : ser w true V = .throw e) :
    ∀ (pre : List (String × SEXP)) (elems : String),
      (∀ b ∈ pre, ∃ p, ser b.2 true V = .ok p) →
      envsxp_loop ser (pre ++ (key, w) :: post) elems V = .throw e := by
  intro pre
  induction pre with
  | nil =>
      intro elems _
      simp only [List.nil_append, envsxp_loop, hw]
  | cons b rest ih =>
      intro elems hpre
      obtain ⟨p, hp⟩ := hpre b (List.mem_cons_self b rest)
      obtain ⟨t, V'⟩ := p
      obtain ⟨k, v⟩ := b
      have hV := hser _ _ _ _ _ hp
      subst hV
      simp only [List.cons_append, envsxp_loop, hp]
      exact ih _ (fun y hy => hpre y (List.mem_cons_of_mem _ hy))

theorem uniform_fuel {α : Type} (rt : Runtime) (val : α → SEXP) (q : Bool) (V : Visited) :
    ∀ (l : List α), (∀ x ∈ l, ∃ n p, serialize rt n (val x) q V = .ok p) →
      ∃ N, ∀ fuel, N ≤ fuel → ∀ x ∈ l, ∃ p, serialize rt fuel (val x) q V = .ok p := by
  intro l
  induction l with
  | nil =>
      intro _
      exact ⟨0, fun _ _ x hx => absurd hx (List.not_mem_nil x)⟩
  | cons a rest ih =>
      intro h
      obtain ⟨N, hN⟩ := ih (fun x hx => h x (List.mem_cons_of_mem a hx))
      obtain ⟨n, p, hp⟩ := h a (List.mem_cons_self a rest)
      refine ⟨max N n, ?_⟩
      intro fuel hfuel x hx
      rcases List.mem_cons.mp hx with hxa | hxr
      · subst hxa
        exact ⟨p, serialize_mono_ok rt (le_trans (le_max_right N n) hfuel) hp⟩
      · exact hN fuel (le_trans (le_max_left N n) hfuel) x hxr

theorem reachesActive_cycle_error (rt : Runtime) {V : Visited} {v : SEXP}
    (h : ReachesActive rt V v) :
    ∃ n, ∀ fuel, n ≤ fuel → ∀ q, serialize rt fuel v q V = .throw .cycle_error := by
  induction h with
  | @active V e he =>
      refine ⟨1, ?_⟩
      intro fuel hfuel q
      obtain ⟨k, rfl⟩ : ∃ k, fuel = k + 1 := ⟨fuel - 1, by omega⟩
      simp only [serialize, serialize_body, if_pos he]
  | @element V pre w post attrib hpre _ ih =>
      obtain ⟨n, hn⟩ := ih
      obtain ⟨N, hN⟩ := uniform_fuel rt (fun x => x) true V pre hpre
      refine ⟨max N n + 1, ?_⟩
      intro fuel hfuel q
      obtain ⟨k, rfl⟩ : ∃ k, fuel = k + 1 := ⟨fuel - 1, by omega⟩
      have hkN : N ≤ k := by have := le_max_left N n; omega
      have hkn : n ≤ k := by have := le_max_right N n; omega
      have hl := vecsxp_loop_throw (serialize_balanced rt k) (Rf_getAttrib_names attrib)
        w post V _ (hn k hkn true) pre 0 "" (hN k hkN)
      rw [serialize, serialize_body]
      simp only [hl]
  | @binding V f pre key w post hf hb hpre _ ih =>
      obtain ⟨n, hn⟩ := ih
      obtain ⟨N, hN⟩ :=
        uniform_fuel rt (fun (b : String × SEXP) => b.2) true (insert f V) pre hpre
      refine ⟨max N n + 1, ?_⟩
      intro fuel hfuel q
      obtain ⟨k, rfl⟩ : ∃ k, fuel = k + 1 := ⟨fuel - 1, by omega⟩
      have hkN : N ≤ k := by have := le_max_left N n; omega
      have hkn : n ≤ k := by have := le_max_right N n; omega
      have hl := envsxp_loop_throw (serialize_balanced rt k) key w post (insert f V) _
        (hn k hkn true) pre "" (hN k hkN)
      rw [serialize, serialize_body]
      simp only [if_neg hf, hb, hl]

/-- C3 (amended): when an environment `e` has a binding whose value is `e`
itself, or a list (at any depth) or another environment through which `e` is
reached again, and the bindings of `e` enumerated before it, as well as the
elements and bindings enumerated before the occurrence inside those lists and
environments, serialize successfully, then `serialize_value(e)` raises the
cycle error and returns no text. -/
theorem binding_cycle_error (rt : Runtime) (e : Nat) (pre : List (String × SEXP))
    (key : String) (w : SEXP) (post : List (String × SEXP))
    (hb : (rt.frame e).bindings = pre ++ (key, w) :: post)
    (hpre : ∀ b ∈ pre, ∃ n p, serialize rt n b.2 true {e} = .ok p)
    (hw : ReachesActive rt {e} w) :
    ∃ n, ∀ fuel, n ≤ fuel → serialize_value rt fuel (.ENVSXP e) = .throw .cycle_error := by
  have hr : ReachesActive rt ∅ (.ENVSXP e) := by
    refine ReachesActive.binding (Finset.not_mem_empty e) hb ?_ ?_
    · simpa using hpre
    · simpa using hw
  obtain ⟨n, hn⟩ := reachesActive_cycle_error rt hr
  refine ⟨n, ?_⟩
  intro fuel hfuel
  simp only [serialize_value, hn fuel hfuel false]

/-- C3 (witness): the environment of `nested_self_runtime`, reached again
through a list inside a list bound to `x`, after the binding `a`. -/
theorem binding_cycle_error_witness :
    serialize_value nested_self_runtime 4 (.ENVSXP 0) = .throw .cycle_error ∧
      ∃ n, ∀ fuel, n ≤ fuel →
        serialize_value nested_self_runtime fuel (.ENVSXP 0) = .throw .cycle_error :=
  And.intro (by decide) <|
  binding_cycle_error nested_self_runtime 0 [("a", .REALSXP [1])] "x"
    (.VECSXP [.REALSXP [2], .VECSXP [.ENVSXP 0] []] []) [] rfl
    (fun b hb => by
      rw [List.mem_singleton] at hb
      subst hb
      exact ⟨1, _, rfl⟩)
    (@ReachesActive.element nested_self_runtime {0} [.REALSXP [2]] (.VECSXP [.ENVSXP 0] []) [] []
      (fun x hx => by
        rw [List.mem_singleton] at hx
        subst hx
        exact ⟨1, _, rfl⟩)
      (@ReachesActive.element nested_self_runtime {0} [] (.ENVSXP 0) [] []
        (fun x hx => absurd hx (List.not_mem_nil x))
        (ReachesActive.active (Finset.mem_singleton_self 0))))

/-- C3 (counterexample): the only binding of the environment 0 of
`builtin_before_self_runtime` is a list that holds the environment itself
after a builtin; no binding is enumerated before it, and `serialize_value`
raises the unsupported-kind error, never the cycle error. -/
theorem builtin_before_self_not_cycle :
    (builtin_before_self_runtime.frame 0).bindings
        = [("x", .VECSXP [.BUILTINSXP, .ENVSXP 0] [])] ∧
      serialize_value builtin_before_self_runtime 3 (.ENVSXP 0)
        = .throw (.sexp_not_supported_error "BUILTINSXP") ∧
      ∀ fuel, serialize_value builtin_before_self_runtime fuel (.ENVSXP 0)
        ≠ .throw .cycle_error := by
  refine ⟨rfl, by decide, ?_⟩
  intro fuel
  by_cases h : 3 ≤ fuel
  · rw [serialize_value_mono builtin_before_self_runtime h (.ENVSXP 0) (by decide)]
    decide
  · have h' : fuel = 0 ∨ fuel = 1 ∨ fuel = 2 := by omega
    rcases h' with h' | h' | h' <;> subst h' <;> decide

/-! ### Termination -/

theorem size_pos (v : SEXP) : 1 ≤ v.size := by
  cases v <;> simp [SEXP.size] <;> omega

theorem size_lt_size_elts : ∀ (elts : List SEXP) (x : SEXP), x ∈ elts → x.size < size_elts elts := by
  intro elts
  induction elts with
  | nil => intro x h; exact absurd h (List.not_mem_nil x)
  | cons a rest ih =>
      intro x h
      simp only [size_elts]
      rcases List.mem_cons.mp h with h1 | h1
      · subst h1
        omega
      · have := ih x h1
        omega

theorem size_lt_size_cells :
    ∀ (cells : List (SEXP × SEXP)) (c : SEXP × SEXP), c ∈ cells →
      c.1.size + c.2.size < size_cells cells := by
  intro cells
  induction cells with
  | nil => intro c h; exact absurd h (List.not_mem_nil c)
  | cons a rest ih =>
      intro c h
      obtain ⟨tag, car⟩ := a
      simp only [size_cells]
      rcases List.mem_cons.mp h with h1 | h1
      · subst h1
        simp only
        omega
      · have := ih c h1
        omega

theorem size_lt_size_attrib :
    ∀ (attrib : List (String × SEXP)) (a : String × SEXP), a ∈ attrib →
      a.2.size < size_attrib attrib := by
  intro attrib
  induction attrib with
  | nil => intro a h; exact absurd h (List.not_mem_nil a)
  | cons x rest ih =>
      intro a h
      obtain ⟨tag, car⟩ := x
      simp only [size_attrib]
      rcases List.mem_cons.mp h with h1 | h1
      · subst h1
        simp only
        omega
      · have := ih a h1
        omega

theorem sum_map_le_of_mem {α : Type} (f : α → Nat) :
    ∀ (l : List α) (a : α), a ∈ l → f a ≤ (l.map f).sum := by
  intro l
  induction l with
  | nil => intro a h; exact absurd h (List.not_mem_nil a)
  | cons x rest ih =>
      intro a h
      simp only [List.map_cons, List.sum_cons]
      rcases List.mem_cons.mp h with h1 | h1
      · subst h1
        omega
      · have := ih a h1
        omega

theorem frame_of_lt (rt : Runtime) (e : Nat) (h : e < rt.frames.length) :
    rt.frame e ∈ rt.frames := by
  simp only [Runtime.frame, List.getD_eq_getElem?_getD, List.getElem?_eq_getElem h,
    Option.getD_some]
  exact List.getElem_mem h

theorem frame_of_ge (rt : Runtime) (e : Nat) (h : rt.frames.length ≤ e) :
    rt.frame e = ⟨none, [], none, none⟩ := by
  simp only [Runtime.frame, List.getD_eq_getElem?_getD, List.getElem?_eq_none h,
    Option.getD_none]

theorem binding_le_bound (rt : Runtime) (e : Nat) (h : e < rt.frames.length)
    (b : String × SEXP) (hb : b ∈ (rt.frame e).bindings) :
    b.2.size ≤ rt.binding_bound := by
  have h1 := sum_map_le_of_mem (fun (b : String × SEXP) => b.2.size) _ b hb
  have h2 := sum_map_le_of_mem
    (fun (f : Frame) => (f.bindings.map (fun b => b.2.size)).sum) _ _ (frame_of_lt rt e h)
  simp only [Runtime.binding_bound]
  simp only at h1 h2
  omega

theorem unvisited_insert (rt : Runtime) (V : Visited) (e : Nat) (h : e < rt.frames.length)
    (he : e ∉ V) : rt.unvisited (insert e V) + 1 = rt.unvisited V := by
  simp only [Runtime.unvisited]
  have hmem : e ∈ Finset.range rt.frames.length \ V := by
    simp [Finset.mem_sdiff, h, he]
  have heq : Finset.range rt.frames.length \ insert e V
      = (Finset.range rt.frames.length \ V).erase e := by
    ext x
    simp only [Finset.mem_sdiff, Finset.mem_insert, Finset.mem_erase, Finset.mem_range]
    tauto
  rw [heq, Finset.card_erase_of_mem hmem]
  have : 0 < (Finset.range rt.frames.length \ V).card := Finset.card_pos.mpr ⟨e, hmem⟩
  omega

theorem wrap_in_attributes_loop_terminates {ser : Ser} (hbal : ser.Balanced) (V : Visited) :
    ∀ (attrib : List (String × SEXP)) (elems : String),
      (∀ a ∈ attrib, ser a.2 true V ≠ .diverge) →
      wrap_in_attributes_loop ser attrib elems V ≠ .diverge := by
  intro attrib
  induction attrib with
  | nil => intro elems _; simp [wrap_in_attributes_loop]
  | cons a cdr ih =>
      intro elems h
      obtain ⟨tag, car⟩ := a
      have hcdr : ∀ a ∈ cdr, ser a.2 true V ≠ .diverge :=
        fun a ha => h a (List.mem_cons_of_mem _ ha)
      simp only [wrap_in_attributes_loop]
      by_cases h1 : tag = "srcref"
      · simp only [if_pos h1]
        exact ih _ hcdr
      · simp only [if_neg h1]
        by_cases h2 : tag = "names"
        · simp only [if_pos h2]
          exact ih _ hcdr
        · simp only [if_neg h2]
          cases hv : ser car true V with
          | ok p =>
              obtain ⟨value, V1⟩ := p
              have hV := hbal _ _ _ _ _ hv
              subst hV
              exact ih _ hcdr
          | throw e => simp
          | diverge => exact absurd hv (h (tag, car) (List.mem_cons_self _ _))

theorem wrap_in_attributes_terminates {ser : Ser} (hbal : ser.Balanced) (V : Visited)
    (attrib : List (String × SEXP)) (s_str : String)
    (h : ∀ a ∈ attrib, ser a.2 true V ≠ .diverge) :
    wrap_in_attributes ser attrib s_str V ≠ .diverge := by
  simp only [wrap_in_attributes]
  cases hl : wrap_in_attributes_loop ser attrib "" V with
  | ok p => simp
  | throw e => simp
  | diverge => exact absurd hl (wrap_in_attributes_loop_terminates hbal V attrib "" h)

theorem format_argument_terminates {ser : Ser} (hbal : ser.Balanced) (V : Visited)
    (arg : SEXP × SEXP) (h1 : ser arg.1 false V ≠ .diverge) (h2 : ser arg.2 false V ≠ .diverge) :
    format_argument ser arg V ≠ .diverge := by
  obtain ⟨arg_name, arg_value⟩ := arg
  cases arg_name
  case NILSXP =>
    simp only [format_argument]
    cases hv : ser arg_value false V with
    | ok p => simp
    | throw e => simp
    | diverge => exact absurd hv h2
  case SYMSXP printname =>
    simp only [format_argument]
    cases hn : ser (.SYMSXP printname) false V with
    | ok p =>
        obtain ⟨printed, V1⟩ := p
        have hV := hbal _ _ _ _ _ hn
        subst hV
        simp only
        cases hv : ser arg_value false V1 with
        | ok p => simp
        | throw e => simp
        | diverge => exact absurd hv h2
    | throw e => simp
    | diverge => exact absurd hn h1
  all_goals simp [format_argument]

theorem format_arguments_terminates {ser : Ser} (hbal : ser.Balanced) (sep : String)
    (V : Visited) :
    ∀ (args : List (SEXP × SEXP)) (res : String),
      (∀ a ∈ args, ser a.1 false V ≠ .diverge ∧ ser a.2 false V ≠ .diverge) →
      format_arguments_loop ser sep args res V ≠ .diverge := by
  intro args
  induction args with
  | nil => intro res _; simp [format_arguments_loop]
  | cons arg cdr ih =>
      intro res h
      simp only [format_arguments_loop]
      have harg := h arg (List.mem_cons_self _ _)
      cases hf : format_argument ser arg V with
      | ok p =>
          obtain ⟨formatted, V1⟩ := p
          have hV := format_argument_balanced hbal _ _ _ _ hf
          subst hV
          exact ih _ (fun a ha => h a (List.mem_cons_of_mem _ ha))
      | throw e => simp
      | diverge => exact absurd hf (format_argument_terminates hbal V arg harg.1 harg.2)

theorem vecsxp_loop_terminates {ser : Ser} (hbal : ser.Balanced) (names : Option (List String))
    (V : Visited) :
    ∀ (elts : List SEXP) (i : Nat) (args : String),
      (∀ x ∈ elts, ser x true V ≠ .diverge) →
      vecsxp_loop ser names i elts args V ≠ .diverge := by
  intro elts
  induction elts with
  | nil => intro i args _; simp [vecsxp_loop]
  | cons elt rest ih =>
      intro i args h
      simp only [vecsxp_loop]
      cases hv : ser elt true V with
      | ok p =>
          obtain ⟨value, V1⟩ := p
          have hV := hbal _ _ _ _ _ hv
          subst hV
          exact ih _ _ (fun a ha => h a (List.mem_cons_of_mem _ ha))
      | throw e => simp
      | diverge => exact absurd hv (h elt (List.mem_cons_self _ _))

theorem envsxp_loop_terminates {ser : Ser} (hbal : ser.Balanced) (V : Visited) :
    ∀ (bindings : List (String × SEXP)) (elems : String),
      (∀ b ∈ bindings, ser b.2 true V ≠ .diverge) →
      envsxp_loop ser bindings elems V ≠ .diverge := by
  intro bindings
  induction bindings with
  | nil => intro elems _; simp [envsxp_loop]
  | cons b rest ih =>
      intro elems h
      obtain ⟨key, value⟩ := b
      simp only [envsxp_loop]
      cases hv : ser value true V with
      | ok p =>
          obtain ⟨printed, V1⟩ := p
          have hV := hbal _ _ _ _ _ hv
          subst hV
          exact ih _ (fun a ha => h a (List.mem_cons_of_mem _ ha))
      | throw e => simp
      | diverge => exact absurd hv (h (key, value) (List.mem_cons_self _ _))

theorem listsxp_loop_terminates {ser : Ser} (hbal : ser.Balanced)
    (names : Option (List String)) (V : Visited) :
    ∀ (cells : List (SEXP × SEXP)) (i : Nat) (outStr : String),
      (∀ c ∈ cells, ser c.2 false V ≠ .diverge) →
      listsxp_loop ser names i cells outStr V ≠ .diverge := by
  intro cells
  induction cells with
  | nil => intro i outStr _; simp [listsxp_loop]
  | cons con rest ih =>
      intro i outStr h
      simp only [listsxp_loop]
      cases hn : STRING_ELT names i with
      | ok element_name =>
          simp only
          cases hv : ser con.2 false V with
          | ok p =>
              obtain ⟨val, V1⟩ := p
              have hV := hbal _ _ _ _ _ hv
              subst hV
              exact ih _ _ (fun a ha => h a (List.mem_cons_of_mem _ ha))
          | throw e => simp
          | diverge => exact absurd hv (h con (List.mem_cons_self _ _))
      | throw e => simp
      | diverge =>
          cases names <;> simp [STRING_ELT] at hn

theorem CAR_size (s : List (SEXP × SEXP)) : (CAR s).size ≤ 1 + size_cells s := by
  cases s with
  | nil => simp [CAR, SEXP.size]
  | cons cell rest =>
      obtain ⟨tag, car⟩ := cell
      simp only [CAR, size_cells]
      omega

theorem CDR_size (s : List (SEXP × SEXP)) : size_cells (CDR s) ≤ size_cells s := by
  cases s with
  | nil => simp [CDR]
  | cons cell rest =>
      obtain ⟨tag, car⟩ := cell
      simp only [CDR, List.tail_cons, size_cells]
      omega

theorem CADR_size (s : List (SEXP × SEXP)) : (CADR s).size ≤ 1 + size_cells s := by
  have h1 := CAR_size (CDR s)
  have h2 := CDR_size s
  simp only [CADR]
  omega

theorem pairlist_cells_size (x : SEXP) (formals : List (SEXP × SEXP))
    (h : pairlist_cells x = .ok formals) :
    ∀ a ∈ formals, a.1.size ≤ x.size ∧ a.2.size ≤ x.size := by
  intro a ha
  cases x
  case NILSXP =>
    simp only [pairlist_cells, Res.ok.injEq] at h
    subst h
    exact absurd ha (List.not_mem_nil a)
  case LISTSXP cells =>
    simp only [pairlist_cells, Res.ok.injEq] at h
    subst h
    have := size_lt_size_cells _ a ha
    simp only [SEXP.size]
    omega
  case LANGSXP car cdr =>
    simp only [pairlist_cells, Res.ok.injEq] at h
    subst h
    simp only [SEXP.size]
    rcases List.mem_cons.mp ha with h1 | h1
    · subst h1
      have := size_pos car
      simp only [SEXP.size]
      omega
    · have := size_lt_size_cells _ a h1
      omega
  all_goals simp [pairlist_cells] at h

theorem serialize_body_terminates (rt : Runtime) {self : Ser} (hbal : self.Balanced) (N : Nat)
    (hself : ∀ x q V, fuel_bound rt V x ≤ N → self x q V ≠ .diverge)
    (v : SEXP) (q : Bool) (V : Visited) (hv : fuel_bound rt V v ≤ N + 1) :
    serialize_body rt self v q V ≠ .diverge := by
  have sub : ∀ (x : SEXP) (q' : Bool), x.size < v.size → self x q' V ≠ .diverge := by
    intro x q' hx
    apply hself
    simp only [fuel_bound] at hv ⊢
    omega
  have hargs : ∀ (args : List (SEXP × SEXP)) (sep : String),
      (∀ a ∈ args, a.1.size < v.size ∧ a.2.size < v.size) →
      format_arguments self args sep V ≠ .diverge := by
    intro args sep h
    exact format_arguments_terminates hbal sep V args ""
      (fun a ha => ⟨sub _ _ (h a ha).1, sub _ _ (h a ha).2⟩)
  cases v
  case VECSXP elts attrib =>
    simp only [serialize_body]
    have helts : ∀ x ∈ elts, self x true V ≠ .diverge := by
      intro x hx
      apply sub
      have := size_lt_size_elts _ x hx
      simp only [SEXP.size]
      omega
    have hattr : ∀ a ∈ attrib, self a.2 true V ≠ .diverge := by
      intro a ha
      apply sub
      have := size_lt_size_attrib _ a ha
      simp only [SEXP.size]
      omega
    cases hl : vecsxp_loop self (Rf_getAttrib_names attrib) 0 elts "" V with
    | ok p =>
        obtain ⟨args, V1⟩ := p
        have hV := vecsxp_loop_balanced hbal _ _ _ _ _ _ _ hl
        subst hV
        exact wrap_in_attributes_terminates hbal V1 attrib _ hattr
    | throw e => simp
    | diverge => exact absurd hl (vecsxp_loop_terminates hbal _ V elts 0 "" helts)
  case LISTSXP cells =>
    simp only [serialize_body]
    have hcells : ∀ c ∈ cells, self c.2 false V ≠ .diverge := by
      intro c hc
      apply sub
      have := size_lt_size_cells _ c hc
      simp only [SEXP.size]
      omega
    cases hn : Rf_getAttrib_names_pairlist cells with
    | ok names =>
        simp only
        cases hl : listsxp_loop self names 0 cells "\"alist(" V with
        | ok p => simp
        | throw e => simp
        | diverge => exact absurd hl (listsxp_loop_terminates hbal names V cells 0 _ hcells)
    | throw e => simp
    | diverge =>
        simp only [Rf_getAttrib_names_pairlist] at hn
        split at hn
        · simp at hn
        · split at hn <;> simp at hn
  case CLOSXP formals body cloenv attrib =>
    simp only [serialize_body]
    by_cases hc : environment_name_as_code rt
        (extract_closure_env rt (.CLOSXP formals body cloenv attrib)) = ""
    · simp only [if_pos hc]
      have henv : self (.ENVSXP (extract_closure_env rt (.CLOSXP formals body cloenv attrib)))
          false V ≠ .diverge := by
        apply hself
        have h1 := size_pos formals
        have h2 := size_pos body
        simp only [fuel_bound, SEXP.size] at hv ⊢
        omega
      cases he : self (.ENVSXP (extract_closure_env rt (.CLOSXP formals body cloenv attrib)))
          false V with
      | ok p => simp
      | throw e => simp
      | diverge => exact absurd he henv
    · simp only [if_neg hc]
      simp
  case ENVSXP env =>
    simp only [serialize_body]
    by_cases hnv : env ∈ V
    · simp [if_pos hnv]
    · simp only [if_neg hnv]
      by_cases hlt : env < rt.frames.length
      · have hk := unvisited_insert rt V env hlt hnv
        have hmul : rt.unvisited V * (rt.binding_bound + 1)
            = rt.unvisited (insert env V) * (rt.binding_bound + 1) + (rt.binding_bound + 1) := by
          rw [← hk]
          ring
        have hbind : ∀ b ∈ (rt.frame env).bindings, self b.2 true (insert env V) ≠ .diverge := by
          intro b hb
          apply hself
          have := binding_le_bound rt env hlt b hb
          simp only [fuel_bound, SEXP.size] at hv ⊢
          omega
        have hpar : ∀ p, self (.ENVSXP p) false (insert env V) ≠ .diverge := by
          intro p
          apply hself
          simp only [fuel_bound, SEXP.size] at hv ⊢
          omega
        cases hl : envsxp_loop self (rt.frame env).bindings "" (insert env V) with
        | ok p =>
            obtain ⟨elems, V1⟩ := p
            have hV := envsxp_loop_balanced hbal _ _ _ _ _ hl
            subst hV
            simp only
            cases hp : (rt.frame env).enclos with
            | none => simp
            | some parent =>
                simp only
                by_cases hpv : parent ∉ insert env V
                · simp only [if_pos hpv]
                  by_cases h1 : parent = rt.R_EmptyEnv
                  · simp [if_pos h1]
                  · simp only [if_neg h1]
                    by_cases h2 : parent = rt.R_GlobalEnv
                    · simp [if_pos h2]
                    · simp only [if_neg h2]
                      by_cases h3 : parent = rt.R_BaseEnv ∨ parent = rt.R_BaseNamespace
                      · simp [if_pos h3]
                      · simp only [if_neg h3]
                        by_cases h4 : R_IsPackageEnv rt parent = true
                        · simp [if_pos h4]
                        · simp only [if_neg h4]
                          by_cases h5 : R_IsNamespaceEnv rt parent = true
                          · simp [if_pos h5]
                          · simp only [if_neg h5]
                            cases hr : self (.ENVSXP parent) false (insert env V) with
                            | ok p => simp
                            | throw e => simp
                            | diverge => exact absurd hr (hpar parent)
                · simp only [if_neg hpv]
                  simp
        | throw e => simp
        | diverge => exact absurd hl (envsxp_loop_terminates hbal _ _ "" hbind)
      · have hf := frame_of_ge rt env (Nat.le_of_not_lt hlt)
        simp [hf, envsxp_loop]
  case LANGSXP car cdr =>
    simp only [serialize_body]
    have hcar := size_pos car
    have hCAR : self (CAR cdr) false V ≠ .diverge := by
      apply sub
      have := CAR_size cdr
      simp only [SEXP.size]
      omega
    have hCADR : self (CADR cdr) false V ≠ .diverge := by
      apply sub
      have := CADR_size cdr
      simp only [SEXP.size]
      omega
    have hcells : ∀ a ∈ cdr, a.1.size < (SEXP.LANGSXP car cdr).size ∧
        a.2.size < (SEXP.LANGSXP car cdr).size := by
      intro a ha
      have := size_lt_size_cells _ a ha
      simp only [SEXP.size]
      omega
    cases hf : self car false V with
    | ok p =>
        obtain ⟨f, V1⟩ := p
        have hV := hbal _ _ _ _ _ hf
        subst hV
        simp only
        by_cases hi : is_infix_fun f = true
        · simp only [if_pos hi]
          cases hl : self (CAR cdr) false V1 with
          | ok p =>
              obtain ⟨l, V2⟩ := p
              have hV := hbal _ _ _ _ _ hl
              subst hV
              simp only
              cases hr : self (CADR cdr) false V2 with
              | ok p => simp
              | throw e => simp
              | diverge => exact absurd hr hCADR
          | throw e => simp
          | diverge => exact absurd hl hCAR
        · simp only [if_neg hi]
          by_cases hb : f.data.head? = some '['
          · simp only [if_pos hb]
            cases hc : self (CAR cdr) false V1 with
            | ok p =>
                obtain ⟨c, V2⟩ := p
                have hV := hbal _ _ _ _ _ hc
                subst hV
                simp only
                cases hs : format_arguments self (CDR cdr) ", " V2 with
                | ok p =>
                    simp only
                    by_cases hf1 : f = "["
                    · simp [if_pos hf1]
                    · simp only [if_neg hf1]
                      by_cases hf2 : f = "[["
                      · simp [if_pos hf2]
                      · simp [if_neg hf2]
                | throw e => simp
                | diverge =>
                    refine absurd hs (hargs _ _ ?_)
                    intro a ha
                    exact hcells a (List.mem_of_mem_tail ha)
            | throw e => simp
            | diverge => exact absurd hc hCAR
          · simp only [if_neg hb]
            by_cases hfn : f = "function"
            · simp only [if_pos hfn]
              cases hpc : pairlist_cells (CAR cdr) with
              | ok formals =>
                  simp only
                  have hformals : ∀ a ∈ formals, a.1.size < (SEXP.LANGSXP car cdr).size ∧
                      a.2.size < (SEXP.LANGSXP car cdr).size := by
                    intro a ha
                    have h1 := pairlist_cells_size _ _ hpc a ha
                    have h2 := CAR_size cdr
                    simp only [SEXP.size]
                    omega
                  cases ha : format_arguments self formals ", " V1 with
                  | ok p =>
                      obtain ⟨args, V2⟩ := p
                      have hV := format_arguments_balanced hbal _ _ _ _ _ ha
                      subst hV
                      simp only
                      cases hbd : self (CADR cdr) false V2 with
                      | ok p => simp
                      | throw e => simp
                      | diverge => exact absurd hbd hCADR
                  | throw e => simp
                  | diverge => exact absurd ha (hargs _ _ hformals)
              | throw e => simp
              | diverge =>
                  cases hx : CAR cdr <;> rw [hx] at hpc <;> simp [pairlist_cells] at hpc
            · simp only [if_neg hfn]
              by_cases hbr : f = "\x7b"
              · simp only [if_pos hbr]
                cases ha : format_arguments self cdr "\n\t" V1 with
                | ok p => simp
                | throw e => simp
                | diverge => exact absurd ha (hargs _ _ hcells)
              · simp only [if_neg hbr]
                by_cases hpar : f = "("
                · simp only [if_pos hpar]
                  cases ha : format_arguments self cdr ", " V1 with
                  | ok p => simp
                  | throw e => simp
                  | diverge => exact absurd ha (hargs _ _ hcells)
                · simp only [if_neg hpar]
                  cases ha : format_arguments self cdr ", " V1 with
                  | ok p => simp
                  | throw e => simp
                  | diverge => exact absurd ha (hargs _ _ hcells)
    | throw e => simp
    | diverge =>
        refine absurd hf (sub _ _ ?_)
        simp only [SEXP.size]
        omega
  case SYMSXP printname =>
    simp only [serialize_body]
    split <;> simp
  all_goals simp [serialize_body]

theorem serialize_terminates (rt : Runtime) :
    ∀ (fuel : Nat) (v : SEXP) (q : Bool) (V : Visited),
      fuel_bound rt V v ≤ fuel → serialize rt fuel v q V ≠ .diverge := by
  intro fuel
  induction fuel with
  | zero =>
      intro v q V h
      simp only [fuel_bound] at h
      omega
  | succ fuel ih =>
      intro v q V h
      exact serialize_body_terminates rt (serialize_balanced rt fuel) fuel ih v q V h

/-- C9: `serialize_value` is total on every value over every finite table of
environments, cyclic or not: from the fuel `fuel_bound rt ∅ s` on, the call
does not run out of fuel and has one and the same outcome, which is either a
text or a raised error. -/
theorem serialize_value_total (rt : Runtime) (s : SEXP) :
    (∃ t, ∀ fuel, fuel_bound rt ∅ s ≤ fuel → serialize_value rt fuel s = .ok t) ∨
      (∃ e, ∀ fuel, fuel_bound rt ∅ s ≤ fuel → serialize_value rt fuel s = .throw e) := by
  have h0 := serialize_terminates rt (fuel_bound rt ∅ s) s false ∅ (le_refl _)
  have hv0 : serialize_value rt (fuel_bound rt ∅ s) s ≠ .diverge := by
    simp only [serialize_value]
    cases hs : serialize rt (fuel_bound rt ∅ s) s false ∅ with
    | ok p => simp
    | throw e => simp
    | diverge => exact absurd hs h0
  cases hr : serialize_value rt (fuel_bound rt ∅ s) s with
  | ok t =>
      left
      refine ⟨t, fun fuel hfuel => ?_⟩
      rw [serialize_value_mono rt hfuel s hv0, hr]
  | throw e =>
      right
      refine ⟨e, fun fuel hfuel => ?_⟩
      rw [serialize_value_mono rt hfuel s hv0, hr]
  | diverge => exact absurd hr hv0

/-! ### Characters of a valid name -/

theorem Regex.Void.not_nullable : ∀ {r : Regex}, r.Void → r.nullable = false := by
  intro r
  induction r with
  | nothing => intro _; rfl
  | eps => intro h; exact absurd h (by simp [Regex.Void])
  | cls rs => intro h; exact absurd h (by simp [Regex.Void])
  | seq r₁ r₂ ih₁ ih₂ =>
      intro h
      simp only [Regex.Void] at h
      simp only [Regex.nullable]
      rcases h with h | h
      · simp [ih₁ h]
      · simp [ih₂ h]
  | alt r₁ r₂ ih₁ ih₂ =>
      intro h
      simp only [Regex.Void] at h
      simp [Regex.nullable, ih₁ h.1, ih₂ h.2]
  | star r _ => intro h; exact absurd h (by simp [Regex.Void])

theorem Regex.Void.deriv_stays_void (c : Char) : ∀ {r : Regex}, r.Void → (r.deriv c).Void := by
  intro r
  induction r with
  | nothing => intro _; simp [Regex.deriv, Regex.Void]
  | eps => intro h; exact absurd h (by simp [Regex.Void])
  | cls rs => intro h; exact absurd h (by simp [Regex.Void])
  | seq r₁ r₂ ih₁ ih₂ =>
      intro h
      simp only [Regex.Void] at h
      simp only [Regex.deriv]
      rcases h with h | h
      · simp only [Regex.Void.not_nullable h, Bool.false_eq_true, if_false, Regex.Void]
        exact Or.inl (ih₁ h)
      · split
        · simp only [Regex.Void]
          exact ⟨Or.inr h, ih₂ h⟩
        · simp only [Regex.Void]
          exact Or.inr h
  | alt r₁ r₂ ih₁ ih₂ =>
      intro h
      simp only [Regex.Void] at h
      simp only [Regex.deriv, Regex.Void]
      exact ⟨ih₁ h.1, ih₂ h.2⟩
  | star r _ => intro h; exact absurd h (by simp [Regex.Void])

theorem Regex.Void.not_match : ∀ (cs : List Char) {r : Regex}, r.Void → r.matchChars cs = false := by
  intro cs
  induction cs with
  | nil => intro r h; simp [Regex.matchChars, Regex.Void.not_nullable h]
  | cons c rest ih => intro r h; simp only [Regex.matchChars]; exact ih (Regex.Void.deriv_stays_void c h)

theorem Regex.AllCls.deriv_stays {P : Char → Prop} (c : Char) :
    ∀ {r : Regex}, r.AllCls P → (r.deriv c).AllCls P := by
  intro r
  induction r with
  | nothing => intro _; simp [Regex.deriv, Regex.AllCls]
  | eps => intro _; simp [Regex.deriv, Regex.AllCls]
  | cls rs => intro _; simp only [Regex.deriv]; split <;> simp [Regex.AllCls]
  | seq r₁ r₂ ih₁ ih₂ =>
      intro h
      simp only [Regex.AllCls] at h
      simp only [Regex.deriv]
      split
      · simp only [Regex.AllCls]
        exact ⟨⟨ih₁ h.1, h.2⟩, ih₂ h.2⟩
      · simp only [Regex.AllCls]
        exact ⟨ih₁ h.1, h.2⟩
  | alt r₁ r₂ ih₁ ih₂ =>
      intro h
      simp only [Regex.AllCls] at h
      simp only [Regex.deriv, Regex.AllCls]
      exact ⟨ih₁ h.1, ih₂ h.2⟩
  | star r ih =>
      intro h
      simp only [Regex.AllCls] at h
      simp only [Regex.deriv, Regex.AllCls]
      exact ⟨ih h, h⟩

theorem Regex.AllCls.deriv_void {P : Char → Prop} (c : Char) (hc : ¬ P c) :
    ∀ {r : Regex}, r.AllCls P → (r.deriv c).Void := by
  intro r
  induction r with
  | nothing => intro _; simp [Regex.deriv, Regex.Void]
  | eps => intro _; simp [Regex.deriv, Regex.Void]
  | cls rs =>
      intro h
      simp only [Regex.AllCls] at h
      simp only [Regex.deriv]
      split
      · rename_i hin
        exact absurd (h c hin) hc
      · simp [Regex.Void]
  | seq r₁ r₂ ih₁ ih₂ =>
      intro h
      simp only [Regex.AllCls] at h
      simp only [Regex.deriv]
      split
      · simp only [Regex.Void]
        exact ⟨Or.inl (ih₁ h.1), ih₂ h.2⟩
      · simp only [Regex.Void]
        exact Or.inl (ih₁ h.1)
  | alt r₁ r₂ ih₁ ih₂ =>
      intro h
      simp only [Regex.AllCls] at h
      simp only [Regex.deriv, Regex.Void]
      exact ⟨ih₁ h.1, ih₂ h.2⟩
  | star r ih =>
      intro h
      simp only [Regex.AllCls] at h
      simp only [Regex.deriv, Regex.Void]
      exact Or.inl (ih h)

theorem Regex.AllCls.of_match {P : Char → Prop} :
    ∀ (cs : List Char) {r : Regex}, r.AllCls P → r.matchChars cs = true → ∀ c ∈ cs, P c := by
  intro cs
  induction cs with
  | nil => intro r _ _ c hc; exact absurd hc (List.not_mem_nil c)
  | cons a rest ih =>
      intro r hr hm c hc
      simp only [Regex.matchChars] at hm
      have ha : P a := by
        by_contra hna
        have := Regex.Void.not_match rest (Regex.AllCls.deriv_void a hna hr)
        rw [this] at hm
        exact absurd hm (by simp)
      rcases List.mem_cons.mp hc with h1 | h1
      · subst h1
        exact ha
      · exact ih (Regex.AllCls.deriv_stays a hr) hm c h1

theorem VALID_NAME_allCls : VALID_NAME.AllCls (fun c => is_word_char c = true) := by
  simp only [VALID_NAME, Regex.opt, cls_alpha, cls_word, cls_alpha_dot, cls_dot, Regex.AllCls,
    is_word_char, inClass, List.any_cons, List.any_nil, Bool.or_false, Bool.or_eq_true,
    Bool.and_eq_true, decide_eq_true_eq, and_true]
  refine ⟨⟨?_, ?_⟩, ?_, ?_, ?_⟩
  · intro c h
    rcases h with h | h
    · exact Or.inl h
    · exact Or.inr (Or.inl h)
  · intro c h
    exact h
  · intro c h
    exact Or.inr (Or.inr (Or.inr (Or.inl h)))
  · intro c h
    rcases h with h | h | h | h
    · exact Or.inl h
    · exact Or.inr (Or.inl h)
    · exact Or.inr (Or.inr (Or.inr (Or.inl h)))
    · exact Or.inr (Or.inr (Or.inr (Or.inr h)))
  · intro c h
    exact h

theorem valid_symbol_name_chars (name : String) (h : valid_symbol_name name = true) :
    ∀ c ∈ name.data, is_word_char c = true := by
  simp only [valid_symbol_name, Bool.and_eq_true] at h
  exact Regex.AllCls.of_match name.data VALID_NAME_allCls h.2

/-! ### Printed infix applications -/

theorem serialize_symbol (rt : Runtime) (fuel : Nat) (name : String) (V : Visited) :
    serialize rt (fuel + 1) (.SYMSXP name) false V = .ok (name, V) := by
  simp only [serialize, serialize_body]
  split
  · rename_i h
    simp [h]
  · simp

theorem serialize_value_infix_app (rt : Runtime) (fuel : Nat) (op x y t : String)
    (hop : is_infix_fun op = true)
    (h : serialize_value rt fuel (InfixExpr.app op (.sym x) (.sym y)).toSEXP = .ok t) :
    t = x ++ (if is_infix_fun_no_space op = true then "" else " ") ++ op
          ++ (if is_infix_fun_no_space op = true then "" else " ") ++ y := by
  match fuel, h with
  | 0, h => simp [serialize_value, serialize] at h
  | 1, h => simp [serialize_value, serialize, serialize_body, InfixExpr.toSEXP] at h
  | k + 2, h =>
      simp only [serialize_value, InfixExpr.toSEXP] at h
      rw [serialize, serialize_body] at h
      simp only [serialize_symbol, if_pos hop, CAR, CADR, CDR, List.tail_cons, Res.ok.injEq] at h
      exact h.symm

theorem split_unique (p : Char → Bool) :
    ∀ (a a' m m' : List Char), (∀ c ∈ a, p c = true) → (∀ c ∈ a', p c = true) →
      (∃ c t, m = c :: t ∧ p c = false) → (∃ c t, m' = c :: t ∧ p c = false) →
      a ++ m = a' ++ m' → a = a' ∧ m = m' := by
  intro a
  induction a with
  | nil =>
      intro a' m m' _ ha' hm _ h
      cases a' with
      | nil => exact ⟨rfl, by simpa using h⟩
      | cons c' t' =>
          obtain ⟨c, t, hmc, hpc⟩ := hm
          subst hmc
          simp only [List.nil_append, List.cons_append, List.cons.injEq] at h
          have := ha' c' (List.mem_cons_self _ _)
          rw [← h.1, hpc] at this
          exact absurd this (by simp)
  | cons c t ih =>
      intro a' m m' ha ha' hm hm' h
      cases a' with
      | nil =>
          obtain ⟨c', t', hmc, hpc⟩ := hm'
          subst hmc
          simp only [List.nil_append, List.cons_append, List.cons.injEq] at h
          have := ha c (List.mem_cons_self _ _)
          rw [h.1, hpc] at this
          exact absurd this (by simp)
      | cons c' t' =>
          simp only [List.cons_append, List.cons.injEq] at h
          have := ih t' m m' (fun x hx => ha x (List.mem_cons_of_mem _ hx))
            (fun x hx => ha' x (List.mem_cons_of_mem _ hx)) hm hm' h.2
          exact ⟨by rw [h.1, this.1], this.2⟩

theorem infix_text_data (op x y : String) :
    (x ++ (if is_infix_fun_no_space op = true then "" else " ") ++ op
        ++ (if is_infix_fun_no_space op = true then "" else " ") ++ y).data
      = x.data ++ (infix_middle op ++ y.data) := by
  simp only [infix_middle]
  split <;> simp [String.data_append, List.append_assoc]

theorem infix_middle_head (op : String) :
    ∃ c t, infix_middle op = c :: t ∧ is_word_char c = false := by
  by_cases hns : is_infix_fun_no_space op = true
  · simp only [infix_middle, if_pos hns, List.nil_append, List.append_nil]
    simp only [is_infix_fun_no_space, BASE_INFIX_FUNS_NO_SPACE, decide_eq_true_eq,
      List.mem_cons, List.mem_singleton, List.not_mem_nil, or_false] at hns
    rcases hns with h | h | h | h | h <;> subst h <;> exact ⟨_, _, rfl, by decide⟩
  · simp only [infix_middle, if_neg hns, List.singleton_append, List.cons_append]
    exact ⟨_, _, rfl, by decide⟩

theorem infix_middle_last (op : String) :
    ∃ c t, (infix_middle op).reverse = c :: t ∧ is_word_char c = false := by
  by_cases hns : is_infix_fun_no_space op = true
  · simp only [infix_middle, if_pos hns, List.nil_append, List.append_nil]
    simp only [is_infix_fun_no_space, BASE_INFIX_FUNS_NO_SPACE, decide_eq_true_eq,
      List.mem_cons, List.mem_singleton, List.not_mem_nil, or_false] at hns
    rcases hns with h | h | h | h | h <;> subst h <;> exact ⟨_, _, rfl, by decide⟩
  · simp only [infix_middle, if_neg hns, List.reverse_append, List.reverse_cons,
      List.reverse_nil, List.nil_append, List.singleton_append, List.cons_append]
    exact ⟨_, _, rfl, by decide⟩

theorem infix_middle_injective (op₁ op₂ : String) (h : infix_middle op₁ = infix_middle op₂) :
    op₁ = op₂ := by
  have hno : ∀ op, is_infix_fun_no_space op = true → op.data.head? ≠ some ' ' := by
    intro op hns
    simp only [is_infix_fun_no_space, BASE_INFIX_FUNS_NO_SPACE, decide_eq_true_eq,
      List.mem_cons, List.mem_singleton, List.not_mem_nil, or_false] at hns
    rcases hns with h | h | h | h | h <;> subst h <;> decide
  apply String.ext
  by_cases h1 : is_infix_fun_no_space op₁ = true
  · by_cases h2 : is_infix_fun_no_space op₂ = true
    · simpa [infix_middle, h1, h2] using h
    · simp only [infix_middle, if_pos h1, if_neg h2, List.nil_append, List.append_nil,
        List.singleton_append, List.cons_append] at h
      exact absurd (by rw [h]; rfl) (hno op₁ h1)
  · by_cases h2 : is_infix_fun_no_space op₂ = true
    · simp only [infix_middle, if_neg h1, if_pos h2, List.nil_append, List.append_nil,
        List.singleton_append, List.cons_append] at h
      exact absurd (by rw [← h]; rfl) (hno op₂ h2)
    · simp only [infix_middle, if_neg h1, if_neg h2, List.singleton_append, List.cons_append,
        List.cons.injEq, true_and] at h
      exact List.append_cancel_right h

/-- C6 (amended): `serialize_value` is injective on two-operand applications
of infix operators to symbols with valid non-reserved names: two such calls
that print as the same text have the same operator and the same operands. -/
theorem infix_app_injective (rt : Runtime) (fuel₁ fuel₂ : Nat)
    (op₁ x₁ y₁ op₂ x₂ y₂ t : String)
    (hwf₁ : (InfixExpr.app op₁ (.sym x₁) (.sym y₁)).well_formed = true)
    (hwf₂ : (InfixExpr.app op₂ (.sym x₂) (.sym y₂)).well_formed = true)
    (h₁ : serialize_value rt fuel₁ (InfixExpr.app op₁ (.sym x₁) (.sym y₁)).toSEXP = .ok t)
    (h₂ : serialize_value rt fuel₂ (InfixExpr.app op₂ (.sym x₂) (.sym y₂)).toSEXP = .ok t) :
    InfixExpr.app op₁ (.sym x₁) (.sym y₁) = InfixExpr.app op₂ (.sym x₂) (.sym y₂) := by
  simp only [InfixExpr.well_formed, Bool.and_eq_true] at hwf₁ hwf₂
  obtain ⟨⟨hop₁, hx₁⟩, hy₁⟩ := hwf₁
  obtain ⟨⟨hop₂, hx₂⟩, hy₂⟩ := hwf₂
  have e₁ := serialize_value_infix_app rt fuel₁ op₁ x₁ y₁ t hop₁ h₁
  have e₂ := serialize_value_infix_app rt fuel₂ op₂ x₂ y₂ t hop₂ h₂
  have hdata : x₁.data ++ (infix_middle op₁ ++ y₁.data)
      = x₂.data ++ (infix_middle op₂ ++ y₂.data) := by
    rw [← infix_text_data, ← infix_text_data, ← e₁, ← e₂]
  have hm₁ : ∃ c t, infix_middle op₁ ++ y₁.data = c :: t ∧ is_word_char c = false := by
    obtain ⟨c, t, hc, hw⟩ := infix_middle_head op₁
    exact ⟨c, t ++ y₁.data, by rw [hc]; rfl, hw⟩
  have hm₂ : ∃ c t, infix_middle op₂ ++ y₂.data = c :: t ∧ is_word_char c = false := by
    obtain ⟨c, t, hc, hw⟩ := infix_middle_head op₂
    exact ⟨c, t ++ y₂.data, by rw [hc]; rfl, hw⟩
  obtain ⟨hx, hrest⟩ := split_unique is_word_char _ _ _ _
    (valid_symbol_name_chars x₁ hx₁) (valid_symbol_name_chars x₂ hx₂) hm₁ hm₂ hdata
  have hrev : y₁.data.reverse ++ (infix_middle op₁).reverse
      = y₂.data.reverse ++ (infix_middle op₂).reverse := by
    rw [← List.reverse_append, ← List.reverse_append, hrest]
  obtain ⟨hy, hmid⟩ := split_unique is_word_char _ _ _ _
    (fun c hc => valid_symbol_name_chars y₁ hy₁ c (List.mem_reverse.mp hc))
    (fun c hc => valid_symbol_name_chars y₂ hy₂ c (List.mem_reverse.mp hc))
    (infix_middle_last op₁) (infix_middle_last op₂) hrev
  have hop : op₁ = op₂ := infix_middle_injective op₁ op₂ (List.reverse_injective hmid)
  have hxs : x₁ = x₂ := String.ext hx
  have hys : y₁ = y₂ := String.ext (List.reverse_injective hy)
  rw [hop, hxs, hys]

/-- C6 (witness): the call `a + b`. -/
theorem infix_app_injective_witness :
    serialize_value (sample_runtime []) 2
        (InfixExpr.app "+" (.sym "a") (.sym "b")).toSEXP = .ok "a + b" ∧
      InfixExpr.app "+" (.sym "a") (.sym "b") = InfixExpr.app "+" (.sym "a") (.sym "b") :=
  ⟨by decide,
   infix_app_injective (sample_runtime []) 2 3 "+" "a" "b" "+" "a" "b" "a + b"
     (by decide) (by decide) (by decide) (by decide)⟩

/-- C6 (counterexample): `(a + b) + c` and `a + (b + c)` are different
expressions built from valid symbols and the infix operator `+`, and
`serialize_value` prints both as `a + b + c`. -/
theorem sum_left_right_same_text :
    sum_left.well_formed = true ∧ sum_right.well_formed = true ∧ sum_left ≠ sum_right ∧
      serialize_value (sample_runtime []) 3 sum_left.toSEXP = .ok "a + b + c" ∧
      serialize_value (sample_runtime []) 3 sum_right.toSEXP = .ok "a + b + c" ∧
      ∀ fuel, serialize_value (sample_runtime []) fuel sum_left.toSEXP
        = serialize_value (sample_runtime []) fuel sum_right.toSEXP := by
  refine ⟨by decide, by decide, by decide, by decide, by decide, ?_⟩
  intro fuel
  by_cases h : 3 ≤ fuel
  · rw [serialize_value_mono (sample_runtime []) h sum_left.toSEXP (by decide),
      serialize_value_mono (sample_runtime []) h sum_right.toSEXP (by decide)]
    decide
  · have h' : fuel = 0 ∨ fuel = 1 ∨ fuel = 2 := by omega
    rcases h' with h' | h' | h' <;> subst h' <;> decide

/-! ### Symbols and the quote flag -/

/-- C15: for a symbol with print name `p`, `serialize(symbol, false)` returns
`p` (the empty text when `p` is empty), `serialize(symbol, true)` returns
`quote(p)` for a non-empty `p` and `quote(expr=)` for the empty one, and
`serialize_value` returns the bare name. -/
theorem symbol_text (rt : Runtime) (fuel : Nat) (p : String) (V : Visited) :
    serialize rt (fuel + 1) (.SYMSXP p) false V = .ok (p, V) ∧
      serialize rt (fuel + 1) (.SYMSXP p) true V
        = .ok (if p = "" then "quote(expr=)" else "quote(" ++ p ++ ")", V) ∧
      serialize_value rt (fuel + 1) (.SYMSXP p) = .ok p := by
  refine ⟨serialize_symbol rt fuel p V, ?_, ?_⟩
  · simp only [serialize, serialize_body]
    split <;> simp
  · simp only [serialize_value, serialize_symbol]

/-- C19: for a value that is not a symbol, `serialize(v, true)` and
`serialize(v, false)` started on the same tracking set have the same outcome,
text or error. -/
theorem quote_flag_only_for_symbols (rt : Runtime) (fuel : Nat) (v : SEXP) (V : Visited)
    (hv : ∀ p, v ≠ .SYMSXP p) :
    serialize rt fuel v true V = serialize rt fuel v false V := by
  cases fuel with
  | zero => rfl
  | succ n =>
      cases v
      case SYMSXP p => exact absurd rfl (hv p)
      all_goals simp only [serialize, serialize_body]

/-- C19 (witness): the call `a + b`, and the same call stored as the element
of a list, where it is printed bare. -/
theorem quote_flag_only_for_symbols_witness :
    serialize (sample_runtime []) 2 (InfixExpr.app "+" (.sym "a") (.sym "b")).toSEXP true ∅
        = serialize (sample_runtime []) 2 (InfixExpr.app "+" (.sym "a") (.sym "b")).toSEXP
            false ∅ ∧
      serialize_value (sample_runtime []) 3
        (.VECSXP [(InfixExpr.app "+" (.sym "a") (.sym "b")).toSEXP] []) = .ok "list(a + b)" :=
  ⟨quote_flag_only_for_symbols (sample_runtime []) 2 _ ∅ (fun p h => by simp [InfixExpr.toSEXP] at h),
   by decide⟩

/-! ### Infix calls -/

theorem is_infix_fun_iff (f : String) :
    is_infix_fun f = true ↔
      (f ∈ ["<-", "=", "<<-", "+", "-", "*", "/", "^", "==", "!=", "<", "<=", ">=", ">", "&",
          "|", "!", "&&", "||", "~"] ∨
        f ∈ [":", "::", ":::", "$", "@"] ∨
        (f.data.head? = some '%' ∧ f.data.getLast? = some '%')) := by
  simp only [is_infix_fun, BASE_INFIX_FUNS, BASE_INFIX_FUNS_NO_SPACE]
  constructor
  · intro h
    split at h
    · rename_i h1
      exact Or.inl h1
    · split at h
      · rename_i h2
        exact Or.inr (Or.inl h2)
      · split at h
        · rename_i h3
          exact Or.inr (Or.inr h3)
        · exact absurd h (by simp)
  · intro h
    rcases h with h | h | h
    · rw [if_pos h]
    · split
      · rfl
      · simp only [if_pos h]
    · split
      · rfl
      · split
        · rfl
        · simp only [if_pos h]

theorem serialize_ok_fuel_pos (rt : Runtime) {fuel : Nat} {v : SEXP} {q : Bool} {V : Visited}
    {p : String × Visited} (h : serialize rt fuel v q V = .ok p) : ∃ n, fuel = n + 1 := by
  cases fuel with
  | zero => simp [serialize] at h
  | succ n => exact ⟨n, rfl⟩

theorem serialize_infix_call (rt : Runtime) (fuel : Nat) (car : SEXP)
    (cdr : List (SEXP × SEXP)) (f l r : String) (q : Bool) (V V₁ V₂ V₃ : Visited)
    (hf : serialize rt fuel car false V = .ok (f, V₁))
    (hop : is_infix_fun f = true)
    (hl : serialize rt fuel (CAR cdr) false V = .ok (l, V₂))
    (hr : serialize rt fuel (CADR cdr) false V = .ok (r, V₃)) :
    serialize rt (fuel + 1) (.LANGSXP car cdr) q V
      = .ok (l ++ (if is_infix_fun_no_space f = true then "" else " ") ++ f
              ++ (if is_infix_fun_no_space f = true then "" else " ") ++ r, V) := by
  have e₁ := serialize_balanced rt fuel _ _ _ _ _ hf
  have e₂ := serialize_balanced rt fuel _ _ _ _ _ hl
  have e₃ := serialize_balanced rt fuel _ _ _ _ _ hr
  subst e₁ e₂ e₃
  simp only [serialize, serialize_body, hf, if_pos hop, hl, hr]

/-- C12: a call with exactly two operands whose head renders as an infix
operator `fun` (one of the spaced operators, one of the no-space operators,
or a text that begins and ends with `%`) is returned as
`serialize(lhs, false) + SEP + fun + SEP + serialize(rhs, false)`, where `SEP`
is empty exactly for the no-space operators and one blank otherwise; no
parentheses are added. -/
theorem infix_call_text (rt : Runtime) (fuel : Nat) (car lhs rhs tag₁ tag₂ : SEXP)
    (f l r : String) (q : Bool) (V V₁ V₂ V₃ : Visited)
    (hf : serialize rt fuel car false V = .ok (f, V₁))
    (hop : f ∈ ["<-", "=", "<<-", "+", "-", "*", "/", "^", "==", "!=", "<", "<=", ">=", ">",
          "&", "|", "!", "&&", "||", "~"] ∨
        f ∈ [":", "::", ":::", "$", "@"] ∨
        (f.data.head? = some '%' ∧ f.data.getLast? = some '%'))
    (hl : serialize rt fuel lhs false V = .ok (l, V₂))
    (hr : serialize rt fuel rhs false V = .ok (r, V₃)) :
    serialize rt (fuel + 1) (.LANGSXP car [(tag₁, lhs), (tag₂, rhs)]) q V
      = .ok (l ++ (if f ∈ [":", "::", ":::", "$", "@"] then "" else " ") ++ f
              ++ (if f ∈ [":", "::", ":::", "$", "@"] then "" else " ") ++ r, V) := by
  have h := serialize_infix_call rt fuel car [(tag₁, lhs), (tag₂, rhs)] f l r q V V₁ V₂ V₃ hf
    ((is_infix_fun_iff f).mpr hop) hl hr
  simpa [is_infix_fun_no_space, BASE_INFIX_FUNS_NO_SPACE] using h

/-- C12 (witness): the call `a + b`. -/
theorem infix_call_text_witness :
    serialize (sample_runtime []) 2
        (.LANGSXP (.SYMSXP "+") [(.NILSXP, .SYMSXP "a"), (.NILSXP, .SYMSXP "b")]) false ∅
      = .ok ("a + b", ∅) :=
  infix_call_text (sample_runtime []) 1 (.SYMSXP "+") (.SYMSXP "a") (.SYMSXP "b") .NILSXP
    .NILSXP "+" "a" "b" false ∅ ∅ ∅ ∅ rfl (Or.inl (by decide)) rfl rfl

/-- C20: a call whose head renders as an infix operator `fun` and which has
exactly one argument `x` is returned as
`serialize(x, false) + SEP + fun + SEP + "NULL"`: the absent second operand is
read as the null value, and the operator is put after `x`. -/
theorem unary_infix_call_text (rt : Runtime) (fuel : Nat) (car x tag : SEXP)
    (f xt : String) (q : Bool) (V V₁ V₂ : Visited)
    (hf : serialize rt fuel car false V = .ok (f, V₁))
    (hop : is_infix_fun f = true)
    (hx : serialize rt fuel x false V = .ok (xt, V₂)) :
    serialize rt (fuel + 1) (.LANGSXP car [(tag, x)]) q V
      = .ok (xt ++ (if is_infix_fun_no_space f = true then "" else " ") ++ f
              ++ (if is_infix_fun_no_space f = true then "" else " ") ++ "NULL", V) := by
  obtain ⟨n, hn⟩ := serialize_ok_fuel_pos rt hx
  have hnull : serialize rt fuel (CADR [(tag, x)]) false V = .ok ("NULL", V) := by
    subst hn
    simp only [CADR, CDR, CAR, List.tail_cons, serialize, serialize_body]
  exact serialize_infix_call rt fuel car [(tag, x)] f xt "NULL" q V V₁ V₂ V hf hop hx hnull

/-- C20 (witness): the unary minus `-x` and the negation `!x`. -/
theorem unary_infix_call_text_witness :
    serialize (sample_runtime []) 2 (.LANGSXP (.SYMSXP "-") [(.NILSXP, .SYMSXP "x")]) false ∅
        = .ok ("x - NULL", ∅) ∧
      serialize_value (sample_runtime []) 2 (.LANGSXP (.SYMSXP "!") [(.NILSXP, .SYMSXP "x")])
        = .ok "x ! NULL" :=
  ⟨unary_infix_call_text (sample_runtime []) 1 (.SYMSXP "-") (.SYMSXP "x") .NILSXP "-" "x"
      false ∅ ∅ ∅ rfl (by decide) rfl,
   by decide⟩

/-! ### Argument lists -/

theorem format_arguments_loop_ok {ser : Ser} {V : Visited} (sep : String) :
    ∀ (args : List (SEXP × SEXP)) (texts : List String) (res : String),
      List.Forall₂ (fun a t => format_argument ser a V = .ok (t, V)) args texts →
      format_arguments_loop ser sep args res V = .ok (res ++ join sep texts, V) := by
  intro args texts res h
  induction h generalizing res with
  | nil => simp [format_arguments_loop, join]
  | @cons a t as ts ha hrest ih =>
      simp only [format_arguments_loop, ha]
      rw [ih]
      have hlen : as.isEmpty = ts.isEmpty := by
        cases hrest <;> simp
      rw [join_cons, hlen]
      simp only [String.append_assoc]

theorem format_arguments_ok {ser : Ser} (hbal : ser.Balanced) {V : Visited} (sep : String)
    (args : List (SEXP × SEXP)) (texts : List String)
    (h : List.Forall₂ (fun a t => ∃ V', format_argument ser a V = .ok (t, V')) args texts) :
    format_arguments ser args sep V = .ok (join sep texts, V) := by
  have h' : List.Forall₂ (fun a t => format_argument ser a V = .ok (t, V)) args texts := by
    refine List.Forall₂.imp ?_ h
    intro a t hat
    obtain ⟨V', hV'⟩ := hat
    have := format_argument_balanced hbal _ _ _ _ hV'
    rw [this] at hV'
    exact hV'
  have := format_arguments_loop_ok sep args texts "" h'
  simpa [format_arguments] using this

theorem format_argument_unnamed {ser : Ser} (value : SEXP) (V V' : Visited) (t : String)
    (h : ser value false V = .ok (t, V')) :
    format_argument ser (.NILSXP, value) V = .ok (t, V') := by
  simp [format_argument, h]

/-- C18: a call whose head is the block brace and whose statements
`s1..sn` are unnamed is returned as the brace, a newline and a tab, the texts
`serialize(si, false)` joined by a newline and a tab, a newline and the
closing brace; the empty block gives the brace, newline, tab, newline and
closing brace. -/
theorem block_text (rt : Runtime) (fuel : Nat) (stmts : List SEXP) (texts : List String)
    (q : Bool) (V : Visited)
    (hs : List.Forall₂ (fun s t => ∃ V', serialize rt (fuel + 1) s false V = .ok (t, V'))
      stmts texts) :
    serialize rt (fuel + 2) (.LANGSXP (.SYMSXP "\x7b") (stmts.map (fun s => (SEXP.NILSXP, s))))
        q V
      = .ok ("\x7b\n\t" ++ join "\n\t" texts ++ "\n\x7d", V) := by
  have hargs : List.Forall₂
      (fun a t => ∃ V', format_argument (serialize rt (fuel + 1)) a V = .ok (t, V'))
      (stmts.map (fun s => (SEXP.NILSXP, s))) texts := by
    rw [List.forall₂_map_left_iff]
    refine List.Forall₂.imp ?_ hs
    intro s t hst
    obtain ⟨V', hV'⟩ := hst
    exact ⟨V', format_argument_unnamed s V V' t hV'⟩
  have hfa := format_arguments_ok (serialize_balanced rt (fuel + 1)) "\n\t" _ _ hargs
  have hhead := serialize_symbol rt fuel "\x7b" V
  have h1 : is_infix_fun "\x7b" = false := by decide
  have h2 : ¬ ("\x7b" : String).data.head? = some '[' := by decide
  have h3 : ¬ ("\x7b" : String) = "function" := by decide
  rw [serialize, serialize_body]
  simp only [hhead, h1, h2, h3, hfa, if_false, if_true, Bool.false_eq_true]

/-- C18 (witness): the block of the two statements `x` and `y`, and the empty
block. -/
theorem block_text_witness :
    serialize (sample_runtime []) 2
        (.LANGSXP (.SYMSXP "\x7b") [(.NILSXP, .SYMSXP "x"), (.NILSXP, .SYMSXP "y")]) false ∅
        = .ok ("\x7b\n\tx\n\ty\n\x7d", ∅) ∧
      serialize_value (sample_runtime []) 2 (.LANGSXP (.SYMSXP "\x7b") []) = .ok "\x7b\n\t\n\x7d" :=
  ⟨block_text (sample_runtime []) 0 [.SYMSXP "x", .SYMSXP "y"] ["x", "y"] false ∅
      (List.Forall₂.cons ⟨_, rfl⟩ (List.Forall₂.cons ⟨_, rfl⟩ List.Forall₂.nil)),
   by decide⟩

/-! ### Subsetting calls -/

theorem not_infix_of_bracket (f : String) (hb : f.data.head? = some '[') :
    is_infix_fun f = false := by
  by_contra hne
  have hinf : is_infix_fun f = true := by simpa using hne
  rcases (is_infix_fun_iff f).mp hinf with h | h | h
  · simp only [List.mem_cons, List.mem_singleton, List.not_mem_nil, or_false] at h
    rcases h with h | h | h | h | h | h | h | h | h | h | h | h | h | h | h | h | h | h | h | h <;>
      subst h <;> exact absurd hb (by decide)
  · simp only [List.mem_cons, List.mem_singleton, List.not_mem_nil, or_false] at h
    rcases h with h | h | h | h | h <;> subst h <;> exact absurd hb (by decide)
  · rw [h.1] at hb
    exact absurd hb (by decide)

/-- C14: a call whose head renders as a text `fun` beginning with `[`, with
first operand `c` and remaining arguments `a1..an`, is returned as
`serialize(c, false) + "[" + join(", ", format_argument(ai)) + "]"` when `fun`
is `[`, with `[[` and `]]` when `fun` is `[[`; for any other such head the
serialization error for an unknown sub-setting operator is raised, and
whatever the operands are no text is returned. -/
theorem subset_call_text (rt : Runtime) (fuel : Nat) (car c tag : SEXP)
    (args : List (SEXP × SEXP)) (f ctext : String) (texts : List String) (q : Bool)
    (V V₁ V₂ : Visited)
    (hf : serialize rt fuel car false V = .ok (f, V₁))
    (hb : f.data.head? = some '[')
    (hc : serialize rt fuel c false V = .ok (ctext, V₂))
    (ha : List.Forall₂
      (fun a t => ∃ V', format_argument (serialize rt fuel) a V = .ok (t, V')) args texts) :
    serialize rt (fuel + 1) (.LANGSXP car ((tag, c) :: args)) q V
        = (if f = "[" then .ok (ctext ++ "[" ++ join ", " texts ++ "]", V)
           else if f = "[[" then .ok (ctext ++ "[[" ++ join ", " texts ++ "]]", V)
           else .throw (.serialization_error ("Unknown sub-setting operator: " ++ f))) ∧
      (f ≠ "[" → f ≠ "[[" →
        ∀ (cdr : List (SEXP × SEXP)) (p : String × Visited),
          serialize rt (fuel + 1) (.LANGSXP car cdr) q V ≠ .ok p) := by
  have e₁ := serialize_balanced rt fuel _ _ _ _ _ hf
  have e₂ := serialize_balanced rt fuel _ _ _ _ _ hc
  subst e₁ e₂
  have hni := not_infix_of_bracket f hb
  constructor
  · have hfa := format_arguments_ok (serialize_balanced rt fuel) ", " args texts ha
    rw [serialize, serialize_body]
    simp only [hf, hni, Bool.false_eq_true, if_false, if_pos hb, CAR, CDR, List.tail_cons, hc,
      hfa]
    by_cases h1 : f = "["
    · subst h1
      simp
    · simp only [if_neg h1]
      by_cases h2 : f = "[["
      · subst h2
        simp
      · simp only [if_neg h2]
  · intro h1 h2 cdr p
    rw [serialize, serialize_body]
    simp only [hf, hni, Bool.false_eq_true, if_false, if_pos hb]
    cases hcol : serialize rt fuel (CAR cdr) false V₂ with
    | ok pc =>
        obtain ⟨col, V₃⟩ := pc
        simp only
        cases hsub : format_arguments (serialize rt fuel) (CDR cdr) ", " V₃ with
        | ok ps => simp [if_neg h1, if_neg h2]
        | throw e => simp
        | diverge => simp
    | throw e => simp
    | diverge => simp

/-- C14 (witness): the call `x[1]`. -/
theorem subset_call_text_witness :
    serialize (sample_runtime []) 2
        (.LANGSXP (.SYMSXP "[") [(.NILSXP, .SYMSXP "x"), (.NILSXP, .REALSXP [1])]) false ∅
      = .ok ("x[1]", ∅) :=
  (subset_call_text (sample_runtime []) 1 (.SYMSXP "[") (.SYMSXP "x") .NILSXP
    [(.NILSXP, .REALSXP [1])] "[" "x" ["1"] false ∅ ∅ ∅ rfl (by decide) rfl
    (List.Forall₂.cons ⟨_, rfl⟩ List.Forall₂.nil)).1

/-! ### One argument -/

theorem escape_name_eq_empty (name : String) : escape_name name = "" ↔ name = "" := by
  constructor
  · intro h
    by_contra hne
    simp only [escape_name, if_neg hne] at h
    split at h
    · have := congrArg String.length h
      rw [String.length_append, String.length_append] at this
      have h1 : ("`" : String).length = 1 := by decide
      have h2 : ("" : String).length = 0 := by decide
      omega
    · exact hne h
  · intro h
    simp [escape_name, h]

theorem format_argument_named (rt : Runtime) (fuel : Nat) (value : SEXP) (v n : String)
    (V : Visited) (hv : serialize rt (fuel + 1) value false V = .ok (v, V)) (hn : n ≠ "") :
    format_argument (serialize rt (fuel + 1)) (.SYMSXP n, value) V
      = .ok (if v = "" then escape_name n else escape_name n ++ "=" ++ v, V) := by
  have hne : escape_name n ≠ "" := fun h => hn ((escape_name_eq_empty n).mp h)
  simp only [format_argument, serialize_symbol, hv]
  by_cases hv0 : v = ""
  · simp [hv0, hne]
  · simp [hv0, hne]

/-- C13 (amended): for an argument whose value prints as the text `v`: with
a non-empty symbol name `n`, `format_argument` returns
`escape_name(n) + "=" + v` when `v` is non-empty and `escape_name(n)` alone,
without `=`, when `v` is empty (the missing argument); with no name it returns
`v` alone. -/
theorem format_argument_text (rt : Runtime) (fuel : Nat) (value : SEXP) (v : String)
    (V V' : Visited) (hv : serialize rt (fuel + 1) value false V = .ok (v, V')) :
    format_argument (serialize rt (fuel + 1)) (.NILSXP, value) V = .ok (v, V) ∧
      ∀ n, n ≠ "" →
        format_argument (serialize rt (fuel + 1)) (.SYMSXP n, value) V
          = .ok (if v = "" then escape_name n else escape_name n ++ "=" ++ v, V) := by
  have e := serialize_balanced rt (fuel + 1) _ _ _ _ _ hv
  subst e
  constructor
  · exact format_argument_unnamed value _ _ v hv
  · intro n hn
    exact format_argument_named rt fuel value v n _ hv hn

/-- C13 (witness): the argument `if = 1`, whose reserved name is quoted. -/
theorem format_argument_text_witness :
    format_argument (serialize (sample_runtime []) 1) (.NILSXP, .REALSXP [1]) ∅ = .ok ("1", ∅) ∧
      format_argument (serialize (sample_runtime []) 1) (.SYMSXP "if", .REALSXP [1]) ∅
        = .ok ("`if`=1", ∅) := by
  have h := format_argument_text (sample_runtime []) 0 (.REALSXP [1]) "1" ∅ ∅ rfl
  exact ⟨h.1, h.2 "if" (by decide)⟩

/-- C13 (counterexample): the formal argument `x` without a default, that is
the name `x` with the missing-argument value, is formatted as `x`, not as
`escape_name("x") + "=" + serialize(value, false)`, which is `x=`. -/
theorem format_argument_missing_value :
    serialize (sample_runtime []) 1 (.SYMSXP "") false ∅ = .ok ("", ∅) ∧
      format_argument (serialize (sample_runtime []) 1) (.SYMSXP "x", .SYMSXP "") ∅
        = .ok ("x", ∅) ∧
      escape_name "x" ++ "=" ++ "" = "x=" ∧
      ∀ fuel, format_argument (serialize (sample_runtime []) fuel) (.SYMSXP "x", .SYMSXP "") ∅
        ≠ .ok (escape_name "x" ++ "=" ++ "", ∅) := by
  refine ⟨by decide, by decide, by decide, ?_⟩
  intro fuel
  cases fuel with
  | zero => decide
  | succ n =>
      have h := format_argument_named (sample_runtime []) n (.SYMSXP "") "" "x" ∅
        (serialize_symbol _ n "" ∅) (by decide)
      rw [h]
      decide

/-! ### Lists -/

theorem vecsxp_loop_unnamed {ser : Ser} {V : Visited} :
    ∀ (elts : List SEXP) (texts : List String) (i : Nat) (args : String),
      List.Forall₂ (fun v t => ser v true V = .ok (t, V)) elts texts →
      vecsxp_loop ser none i elts args V = .ok (args ++ join ", " texts, V) := by
  intro elts texts i args h
  have hesc : escape_name "" = "" := by decide
  induction h generalizing i args with
  | nil => simp [vecsxp_loop, join]
  | @cons v t vs ts hv hrest ih =>
      simp only [vecsxp_loop, hv, get_element_name, hesc, if_true]
      rw [ih]
      have hlen : vs.isEmpty = ts.isEmpty := by
        cases hrest <;> simp
      rw [join_cons, hlen]
      simp only [String.append_assoc, String.empty_append]

theorem vecsxp_loop_named {ser : Ser} {V : Visited} :
    ∀ (elts : List SEXP) (texts : List String),
      List.Forall₂ (fun v t => ser v true V = .ok (t, V)) elts texts →
      ∀ (pre names : List String) (args : String), names.length = elts.length →
      vecsxp_loop ser (some (pre ++ names)) pre.length elts args V
        = .ok (args ++ join ", " (list_entries (some names) texts), V) := by
  intro elts texts h
  induction h with
  | nil =>
      intro pre names args _
      cases names <;> simp [vecsxp_loop, list_entries, join]
  | @cons v t vs ts hv hrest ih =>
      intro pre names args hlen
      cases names with
      | nil => simp at hlen
      | cons n ns =>
          have hget : get_element_name (some (pre ++ n :: ns)) pre.length = n := by
            simp only [get_element_name, List.getD_eq_getElem?_getD]
            rw [List.getElem?_append_right (le_refl _)]
            simp
          have hpre : pre ++ n :: ns = (pre ++ [n]) ++ ns := by simp
          have hidx : pre.length + 1 = (pre ++ [n]).length := by simp
          simp only [vecsxp_loop, hv, hget]
          rw [hpre, hidx, ih (pre ++ [n]) ns _ (by simpa using hlen)]
          have hemp : vs.isEmpty = (list_entries (some ns) ts).isEmpty := by
            have hl : ns.length = vs.length := by simpa using hlen
            cases hrest with
            | nil =>
                cases ns with
                | nil => simp [list_entries]
                | cons _ _ => simp at hl
            | cons _ _ =>
                cases ns with
                | nil => simp at hl
                | cons _ _ => simp [list_entries]
          simp only [list_entries, List.zipWith_cons_cons] at hemp ⊢
          rw [join_cons, ← hemp]
          by_cases hn : n = ""
          · subst hn
            have hesc : escape_name "" = "" := by decide
            simp only [hesc, if_true, String.append_assoc, String.empty_append]
          · have hne : escape_name n ≠ "" := fun h => hn ((escape_name_eq_empty n).mp h)
            simp only [if_neg hne, if_neg hn, String.append_assoc]

/-- C11: a list with elements `v1..vn`, optional names `n1..nn` and no other
attribute, whose elements serialize successfully, is returned as
`"list(" + join(", ", ei) + ")"`, where `ei` is `serialize(vi, true)` when the
names are absent or `ni` is empty and `escape_name(ni) + "=" +
serialize(vi, true)` otherwise, whatever the quote flag passed for the list. -/
theorem list_text (rt : Runtime) (fuel : Nat) (elts : List SEXP)
    (names : Option (List String)) (texts : List String) (q : Bool) (V : Visited)
    (hlen : ∀ ns, names = some ns → ns.length = elts.length)
    (hel : List.Forall₂ (fun v t => ∃ V', serialize rt fuel v true V = .ok (t, V')) elts texts) :
    serialize rt (fuel + 1) (.VECSXP elts (names_only_attrib names)) q V
      = .ok ("list(" ++ join ", " (list_entries names texts) ++ ")", V) := by
  have hel' := forall₂_restore rt fuel V true (fun (v : SEXP) => v) hel
  cases names with
  | none =>
      have hl := @vecsxp_loop_unnamed (serialize rt fuel) V elts texts 0 "" hel'
      simp only [serialize, serialize_body, names_only_attrib, Rf_getAttrib_names, List.lookup,
        hl, wrap_in_attributes, wrap_in_attributes_loop, list_entries]
      simp
  | some ns =>
      have hl := @vecsxp_loop_named (serialize rt fuel) V elts texts hel' [] ns ""
        (hlen ns rfl)
      simp only [List.nil_append, List.length_nil] at hl
      have hlook : Rf_getAttrib_names [("names", SEXP.STRSXP ns)] = some ns := by
        simp [Rf_getAttrib_names, List.lookup]
      simp only [serialize, serialize_body, names_only_attrib, hlook, hl, wrap_in_attributes,
        wrap_in_attributes_loop]
      simp

/-- C11 (witness): the named list `x = 1, y = "a"`, and the empty list. -/
theorem list_text_witness :
    serialize (sample_runtime []) 2
        (.VECSXP [.REALSXP [1], .STRSXP ["a"]] [("names", .STRSXP ["x", "y"])]) false ∅
        = .ok ("list(x=1, y=\"a\")", ∅) ∧
      serialize_value (sample_runtime []) 1 (.VECSXP [] []) = .ok "list()" :=
  ⟨list_text (sample_runtime []) 1 [.REALSXP [1], .STRSXP ["a"]] (some ["x", "y"])
      ["1", "\"a\""] false ∅ (fun ns h => by cases h; rfl)
      (List.Forall₂.cons ⟨_, rfl⟩ (List.Forall₂.cons ⟨_, rfl⟩ List.Forall₂.nil)),
   by decide⟩

/-! ### Pairlists -/

theorem listsxp_loop_named {ser : Ser} {V : Visited} :
    ∀ (cells : List (SEXP × SEXP)) (texts : List String),
      List.Forall₂ (fun c t => ser c.2 false V = .ok (t, V)) cells texts →
      ∀ (pre names : List String) (outStr : String), names.length = cells.length →
      listsxp_loop ser (some (pre ++ names)) pre.length cells outStr V
        = .ok (outStr ++ (if pre.length ≠ 0 ∧ cells.isEmpty = false then ", " else "")
                ++ join ", " (pairlist_entries names texts), V) := by
  intro cells texts h
  induction h with
  | nil =>
      intro pre names outStr _
      cases names <;> simp [listsxp_loop, pairlist_entries, join]
  | @cons c t cs ts hc hrest ih =>
      intro pre names outStr hlen
      cases names with
      | nil => simp at hlen
      | cons n ns =>
          have hget : STRING_ELT (some (pre ++ n :: ns)) pre.length = .ok n := by
            simp only [STRING_ELT, List.getD_eq_getElem?_getD]
            rw [List.getElem?_append_right (le_refl _)]
            simp
          have hpre : pre ++ n :: ns = (pre ++ [n]) ++ ns := by simp
          have hidx : pre.length + 1 = (pre ++ [n]).length := by simp
          have hval : ∀ s : String, (if t ≠ "" then s ++ t else s) = s ++ t := by
            intro s
            by_cases ht : t = ""
            · simp [ht]
            · simp [ht]
          simp only [listsxp_loop, hget, hc, hval]
          rw [hpre, hidx, ih (pre ++ [n]) ns _ (by simpa using hlen)]
          have hemp : cs.isEmpty = (pairlist_entries ns ts).isEmpty := by
            have hl : ns.length = cs.length := by simpa using hlen
            cases hrest with
            | nil =>
                cases ns with
                | nil => simp [pairlist_entries]
                | cons _ _ => simp at hl
            | cons _ _ =>
                cases ns with
                | nil => simp at hl
                | cons _ _ => simp [pairlist_entries]
          simp only [pairlist_entries, List.zipWith_cons_cons] at hemp ⊢
          rw [join_cons, ← hemp]
          have hne : (pre ++ [n]).length ≠ 0 := by simp
          by_cases hp : pre.length = 0
          · by_cases hcs : cs.isEmpty = true
            · simp [hp, hcs, String.append_assoc]
            · simp [hp, hcs, String.append_assoc]
          · by_cases hcs : cs.isEmpty = true
            · simp [hp, hcs, String.append_assoc]
            · simp [hp, hcs, String.append_assoc]

/-- A pairlist whose tags are symbols or absent, at least one of them a
symbol, and whose values serialize successfully, is returned as a double
quote, `alist(`, the entries `escape_name(ni) + " = " + serialize(vi, false)`
joined by `", "`, `)` and a double quote, with no attribute wrapping. -/
theorem tagged_pairlist_text (rt : Runtime) (fuel : Nat) (cells : List (SEXP × SEXP))
    (texts : List String) (q : Bool) (V : Visited)
    (htags : ∀ c ∈ cells, c.1 = .NILSXP ∨ ∃ n, c.1 = .SYMSXP n)
    (hsome : ∃ c ∈ cells, ∃ n, c.1 = .SYMSXP n)
    (hv : List.Forall₂ (fun c t => ∃ V', serialize rt fuel c.2 false V = .ok (t, V'))
      cells texts) :
    serialize rt (fuel + 1) (.LISTSXP cells) q V
      = .ok ("\"alist(" ++ join ", " (pairlist_entries (cells.map cell_name) texts) ++ ")\"",
          V) := by
  have hv' := forall₂_restore rt fuel V false (fun (c : SEXP × SEXP) => c.2) hv
  have hnames : Rf_getAttrib_names_pairlist cells = .ok (some (cells.map cell_name)) := by
    unfold Rf_getAttrib_names_pairlist
    split
    · rename_i hany
      obtain ⟨c, hc, hct⟩ := List.any_eq_true.mp hany
      rcases htags c hc with h | ⟨n, h⟩ <;> rw [h] at hct <;> simp at hct
    · split
      · rfl
      · rename_i hnone
        exfalso
        apply hnone
        obtain ⟨c, hc, n, hn⟩ := hsome
        exact List.any_eq_true.mpr ⟨c, hc, by rw [hn]⟩
  have hl := @listsxp_loop_named (serialize rt fuel) V cells texts hv' [] (cells.map cell_name)
    "\"alist(" (by simp)
  simp only [List.nil_append, List.length_nil] at hl
  simp only [serialize, serialize_body, hnames, hl]
  simp

/-- C17 (the code at the failing input): for the pairlist `pairlist(1, 2)`,
no cell of which has a tag, both values serialize, the host hands back a null
names vector and the lookup of the first name raises a host error, so no
text is returned at any fuel; the pairlist `pairlist(x = 1, 2)` is returned as
the quoted `alist(` text. -/
theorem untagged_pairlist_host_error :
    serialize (sample_runtime []) 1 (.REALSXP [1]) false ∅ = .ok ("1", ∅) ∧
      serialize (sample_runtime []) 1 (.REALSXP [2]) false ∅ = .ok ("2", ∅) ∧
      serialize_value (sample_runtime []) 2 untagged_pairlist
        = .throw (.Rf_error "STRING_ELT() can only be applied to a character vector") ∧
      (∀ fuel t, serialize_value (sample_runtime []) fuel untagged_pairlist ≠ .ok t) ∧
      serialize_value (sample_runtime []) 2 tagged_pairlist = .ok "\"alist(x = 1,  = 2)\"" := by
  refine ⟨by decide, by decide, by decide, ?_, by decide⟩
  intro fuel t
  have e1 : serialize_value (sample_runtime []) 1 untagged_pairlist
      = .throw (.Rf_error "STRING_ELT() can only be applied to a character vector") := by
    decide
  have e0 : serialize_value (sample_runtime []) 0 untagged_pairlist = .diverge := by decide
  by_cases h : 1 ≤ fuel
  · rw [serialize_value_mono (sample_runtime []) h untagged_pairlist (by decide), e1]
    simp
  · have h' : fuel = 0 := by omega
    subst h'
    rw [e0]
    simp

/-! ### The words matched by `VALID_NAME` -/

theorem matchChars_alt : ∀ (cs : List Char) (r₁ r₂ : Regex),
    (Regex.alt r₁ r₂).matchChars cs = (r₁.matchChars cs || r₂.matchChars cs) := by
  intro cs
  induction cs with
  | nil => intro r₁ r₂; simp [Regex.matchChars, Regex.nullable]
  | cons c t ih => intro r₁ r₂; simp only [Regex.matchChars, Regex.deriv]; exact ih _ _

theorem matchChars_eps (cs : List Char) : Regex.eps.matchChars cs = cs.isEmpty := by
  cases cs with
  | nil => rfl
  | cons c t =>
      simp only [Regex.matchChars, Regex.deriv, List.isEmpty_cons]
      exact Regex.Void.not_match t (by simp [Regex.Void])

theorem matchChars_seq_eps (r : Regex) (cs : List Char) :
    (Regex.seq .eps r).matchChars cs = r.matchChars cs := by
  cases cs with
  | nil => simp [Regex.matchChars, Regex.nullable]
  | cons c t =>
      simp only [Regex.matchChars, Regex.deriv, Regex.nullable, if_true, matchChars_alt]
      rw [Regex.Void.not_match t (by simp [Regex.Void])]
      simp

theorem matchChars_seq_cls (rs : List (Char × Char)) (r : Regex) (c : Char) (t : List Char) :
    (Regex.seq (.cls rs) r).matchChars (c :: t) = (inClass rs c && r.matchChars t) := by
  simp only [Regex.matchChars, Regex.deriv, Regex.nullable, Bool.false_eq_true, if_false]
  by_cases h : inClass rs c = true
  · simp only [h, if_true, matchChars_seq_eps, Bool.true_and]
  · simp only [h, if_false]
    rw [Regex.Void.not_match t (by simp [Regex.Void])]
    simp [h]

theorem matchChars_seq_cls_nil (rs : List (Char × Char)) (r : Regex) :
    (Regex.seq (.cls rs) r).matchChars [] = false := by
  simp [Regex.matchChars, Regex.nullable]

theorem matchChars_star_cls (rs : List (Char × Char)) :
    ∀ cs : List Char, (Regex.star (.cls rs)).matchChars cs = cs.all (inClass rs) := by
  intro cs
  induction cs with
  | nil => simp [Regex.matchChars, Regex.nullable]
  | cons c t ih =>
      simp only [Regex.matchChars, Regex.deriv, List.all_cons]
      by_cases h : inClass rs c = true
      · simp only [h, if_true, matchChars_seq_eps, Bool.true_and]
        exact ih
      · simp only [h, if_false]
        rw [Regex.Void.not_match t (by simp [Regex.Void])]
        simp [h]

theorem matchChars_VALID_NAME_nil : VALID_NAME.matchChars [] = false := by decide

theorem matchChars_VALID_NAME_cons (c : Char) (t : List Char) :
    VALID_NAME.matchChars (c :: t)
      = ((inClass [('a', 'z'), ('A', 'Z')] c && t.all is_word_char) ||
          (inClass [('.', '.')] c &&
            ((match t with
              | [] => false
              | d :: u => inClass [('a', 'z'), ('A', 'Z'), ('.', '.'), ('_', '_')] d &&
                  u.all is_word_char) || t.isEmpty))) := by
  simp only [VALID_NAME, Regex.opt, cls_alpha, cls_word, cls_alpha_dot, cls_dot, matchChars_alt,
    matchChars_seq_cls, matchChars_star_cls, matchChars_eps]
  cases t with
  | nil => simp [matchChars_seq_cls_nil]
  | cons d u =>
      simp only [matchChars_seq_cls, matchChars_star_cls]
      rfl

theorem char_eq_of_toNat {c d : Char} (h : c.toNat = d.toNat) : c = d := by
  rw [← Char.ofNat_toNat c, ← Char.ofNat_toNat d, h]

theorem beq_char_iff_toNat (c d : Char) : (c == d) = decide (c.toNat = d.toNat) := by
  by_cases h : c = d
  · subst h
    simp
  · have : c.toNat ≠ d.toNat := fun e => h (char_eq_of_toNat e)
    simp [h, this]

theorem identifier_grammar_eq (name : String) :
    regex_match name VALID_NAME = identifier_grammar name := by
  have hw : ∀ x : Char, is_word_char x
      = (is_ascii_letter x || is_ascii_digit x || x == '.' || x == '_') := by
    intro x
    simp only [is_word_char, inClass, is_ascii_letter, is_ascii_digit, beq_char_iff_toNat,
      List.any_cons, List.any_nil, Bool.or_false]
    rw [Bool.eq_iff_iff]
    simp only [Bool.or_eq_true, Bool.and_eq_true, decide_eq_true_eq]
    have e1 : '.'.toNat = 46 := rfl
    have e2 : '_'.toNat = 95 := rfl
    rw [e1, e2]
    omega
  have hall : ∀ l : List Char, l.all is_word_char
      = l.all (fun x => is_ascii_letter x || is_ascii_digit x || x == '.' || x == '_') := by
    intro l
    congr 1
    funext x
    exact hw x
  simp only [regex_match, identifier_grammar]
  cases hd : name.data with
  | nil => exact matchChars_VALID_NAME_nil
  | cons c rest =>
      rw [matchChars_VALID_NAME_cons]
      simp only [List.all_cons, ← hall]
      have hL : inClass [('a', 'z'), ('A', 'Z')] c = is_ascii_letter c := by
        simp [inClass, is_ascii_letter]
      have hD : inClass [('.', '.')] c = (c == '.') := by
        simp only [inClass, beq_char_iff_toNat, List.any_cons, List.any_nil, Bool.or_false]
        rw [Bool.eq_iff_iff]
        simp only [Bool.and_eq_true, decide_eq_true_eq]
        omega
      have hLW : is_ascii_letter c = true → is_word_char c = true := by
        intro h
        rw [hw]
        simp [h]
      have hDW : (c == '.') = true → is_word_char c = true := by
        intro h
        rw [hw]
        simp [h]
      have hLD : is_ascii_letter c = true → (c == '.') = false := by
        simp only [is_ascii_letter, beq_char_iff_toNat, Bool.or_eq_true, Bool.and_eq_true,
          decide_eq_true_eq, decide_eq_false_iff_not]
        have e1 : '.'.toNat = 46 := rfl
        have e3 : 'a'.toNat = 97 := rfl
        have e4 : 'z'.toNat = 122 := rfl
        have e5 : 'A'.toNat = 65 := rfl
        have e6 : 'Z'.toNat = 90 := rfl
        rw [e1, e3, e4, e5, e6]
        omega
      rw [hL, hD]
      cases rest with
      | nil =>
          cases h1 : is_ascii_letter c <;> cases h2 : (c == '.') <;>
            cases h3 : is_word_char c <;> simp_all
      | cons d u =>
          have hAD : inClass [('a', 'z'), ('A', 'Z'), ('.', '.'), ('_', '_')] d
              = (is_word_char d && !is_ascii_digit d) := by
            simp only [is_word_char, inClass, is_ascii_digit, List.any_cons, List.any_nil,
              Bool.or_false]
            rw [Bool.eq_iff_iff]
            simp only [Bool.or_eq_true, Bool.and_eq_true, decide_eq_true_eq, Bool.not_eq_true',
              Bool.and_eq_false_iff, decide_eq_false_iff_not]
            have e1 : '.'.toNat = 46 := rfl
            have e2 : '_'.toNat = 95 := rfl
            have e3 : 'a'.toNat = 97 := rfl
            have e4 : 'z'.toNat = 122 := rfl
            have e5 : 'A'.toNat = 65 := rfl
            have e6 : 'Z'.toNat = 90 := rfl
            have e7 : '0'.toNat = 48 := rfl
            have e8 : '9'.toNat = 57 := rfl
            rw [e1, e2, e3, e4, e5, e6, e7, e8]
            omega
          simp only [hAD, List.all_cons, List.isEmpty_cons, Bool.or_false]
          cases h1 : is_ascii_letter c <;> cases h2 : (c == '.') <;>
            cases h3 : is_word_char c <;> cases h4 : is_word_char d <;>
            cases h5 : is_ascii_digit d <;> cases h6 : u.all is_word_char <;> simp_all

/-- C16: `VALID_NAME` accepts exactly the strings of the identifier grammar
described in prose (non-empty; only ASCII letters, digits, dots and
underscores; first character a letter or a dot; a second character after a
leading dot is not a digit); so `.`, `..`, `._a` and `a_1` match, while the
empty string, `_a`, `1a`, `.1` and `a b` do not. -/
theorem VALID_NAME_accepts_identifier_grammar :
    (∀ name : String, regex_match name VALID_NAME = true ↔ identifier_grammar name = true) ∧
      regex_match "." VALID_NAME = true ∧ regex_match ".." VALID_NAME = true ∧
      regex_match "._a" VALID_NAME = true ∧ regex_match "a_1" VALID_NAME = true ∧
      regex_match "" VALID_NAME = false ∧ regex_match "_a" VALID_NAME = false ∧
      regex_match "1a" VALID_NAME = false ∧ regex_match ".1" VALID_NAME = false ∧
      regex_match "a b" VALID_NAME = false := by
  refine ⟨fun name => ?_, by decide, by decide, by decide, by decide, by decide, by decide,
    by decide, by decide, by decide⟩
  rw [identifier_grammar_eq]

end Genthat
